import Mathlib

/-!
# fat32Reader: a shallow embedding of `src/main.cpp`

The C++ program opens a raw FAT32 image, loads the allocation table, walks the
directory tree and prints an estimate of the space in use.  This file embeds
the computational part of the program as executable Lean definitions and
proves (or refutes) properties of it.

Conventions of the embedding

* Machine integers are `Int`/`Nat` values with explicit wrap-around
  (`toU32`, `toI32`, `toI16`, `toI8`).  Signed overflow is taken as
  two's-complement wrap-around.
* `Fat32Extend` holds the fields of the boot sector *as the program holds
  them*, i.e. in the signed C++ field types.  `DiskGeometry` holds the unsigned
  numbers that the volume stores, and `DiskGeometry.load` is the struct the
  program holds for them; likewise `ShortDirEntry.storedCluster` is the start
  cluster that a record stores and `ShortDirEntry.startCluster` the one the
  program computes.  Statements about the volume are made over the stored
  numbers.
* Memory is a function from byte offsets to byte values; a pointer is an
  offset into such a function.  Uninitialised storage (`char temp[...]`,
  `new ShortDirEntry[...]`) is an explicit parameter holding its indeterminate
  content.
* The image is a function from absolute byte offsets to bytes; its length and
  the state of the stream are not modelled.  A positioned read of `n > 0` bytes
  transfers the `n` bytes found there, which is what the program does for a
  read inside the image on a stream in good state; a read with a non-positive
  count transfers nothing.  Where a read lies outside the image (a sector
  computed from an end-of-chain marker), the theorems state only that
  `readSector` is called and with which sector, never which bytes arrive.
* An out-of-range table access, a division by zero and running out of fuel are
  explicit `Fault`s.
* The states of `File::read` and of the directory iterator carry a log of the
  sectors at which `readSector` has been called; the log is not read by the
  embedded code.
-/

namespace Fat32

/-! ## Machine integers -/

/-- Conversion to `uint32_t`. -/
def toU32 (x : Int) : Nat := (x % 4294967296).toNat

/-- Conversion to `int32_t` / `int`. -/
def toI32 (x : Int) : Int := (x + 2147483648) % 4294967296 - 2147483648

/-- Conversion to `int16_t`. -/
def toI16 (x : Int) : Int := (x + 32768) % 65536 - 32768

/-- Conversion to `int8_t`. -/
def toI8 (x : Int) : Int := (x + 128) % 256 - 128

/-- The value `LONG_MAX` of a 64-bit `long`. -/
def LONG_MAX : Int := 9223372036854775807

/-! ## Boot sector geometry -/

/-- The fields of `struct Fat32Extend` that take part in computations, each
holding the value of its C++ field (comment: the C++ type). -/
structure Fat32Extend where
  /-- Field of type int16_t. -/
  bytesPerSector : Int
  /-- Field of type int8_t. -/
  sectorsPerCluster : Int
  /-- Field of type int16_t. -/
  reservedSectors : Int
  /-- Field of type int8_t. -/
  allocationTables : Int
  /-- Field of type int16_t. -/
  totalLogicalSectors : Int
  /-- Field of type int16_t. -/
  sectorsPerFileAllocationTable : Int
  /-- Field of type int32_t. -/
  hiddenSectors : Int
  /-- Field of type int32_t. -/
  totalLogicalSectors2 : Int
  /-- Field of type int32_t. -/
  sectorsPerFileAllocationTable2 : Int
  /-- Field of type int32_t. -/
  rootCluster : Int
  /-- Field of type int16_t. -/
  fsInformationSector : Int
deriving DecidableEq, Repr

/-- Every field lies in the range of its C++ type. -/
def Fat32Extend.InRange (g : Fat32Extend) : Prop :=
  (-32768 ≤ g.bytesPerSector ∧ g.bytesPerSector ≤ 32767) ∧
  (-128 ≤ g.sectorsPerCluster ∧ g.sectorsPerCluster ≤ 127) ∧
  (-32768 ≤ g.reservedSectors ∧ g.reservedSectors ≤ 32767) ∧
  (-128 ≤ g.allocationTables ∧ g.allocationTables ≤ 127) ∧
  (-32768 ≤ g.totalLogicalSectors ∧ g.totalLogicalSectors ≤ 32767) ∧
  (-32768 ≤ g.sectorsPerFileAllocationTable ∧ g.sectorsPerFileAllocationTable ≤ 32767) ∧
  (-2147483648 ≤ g.hiddenSectors ∧ g.hiddenSectors ≤ 2147483647) ∧
  (-2147483648 ≤ g.totalLogicalSectors2 ∧ g.totalLogicalSectors2 ≤ 2147483647) ∧
  (-2147483648 ≤ g.sectorsPerFileAllocationTable2 ∧
    g.sectorsPerFileAllocationTable2 ≤ 2147483647) ∧
  (-2147483648 ≤ g.rootCluster ∧ g.rootCluster ≤ 2147483647) ∧
  (-32768 ≤ g.fsInformationSector ∧ g.fsInformationSector ≤ 32767)

instance (g : Fat32Extend) : Decidable g.InRange := by
  unfold Fat32Extend.InRange; infer_instance

/-- The local `int sectorsPerFAT` of `Cluster::Cluster` and of the constructor
of `FileAllocationTable`: the 16-bit field, or the 32-bit field when the 16-bit
field is zero. -/
def sectorsPerFAT (g : Fat32Extend) : Int :=
  if g.sectorsPerFileAllocationTable = 0 then g.sectorsPerFileAllocationTable2
  else g.sectorsPerFileAllocationTable

/-- The value `tableSize = sectorsPerFAT * fs.bytesPerSector / 4` computed by
the constructor of `FileAllocationTable` (an `int` expression stored in a
`uint32_t`). -/
def tableSizeOf (g : Fat32Extend) : Nat :=
  toU32 (Int.tdiv (toI32 (sectorsPerFAT g * g.bytesPerSector)) 4)

/-- The class `FileAllocationTable`: its public members. -/
structure FileAllocationTable where
  /-- Member `uint32_t tableSize`. -/
  tableSize : Nat
  /-- Member `uint32_t* table`: the entries of the array. -/
  table : List Nat
  /-- Member `fs` (the boot sector's `Fat32Extend`). -/
  fs : Fat32Extend
  /-- Member `disk`: the image, byte by absolute offset. -/
  disk : Nat → Nat

/-- The array `table` has `tableSize` entries, each a `uint32_t`. -/
def FileAllocationTable.WellSized (fat : FileAllocationTable) : Prop :=
  fat.table.length = fat.tableSize ∧ ∀ e ∈ fat.table, e < 4294967296

/-- `FileAllocationTable::clusterBytes`: `fs.sectorsPerCluster * fs.bytesPerSector`
(an `int` product returned as `uint32_t`). -/
def FileAllocationTable.clusterBytes (fat : FileAllocationTable) : Nat :=
  toU32 (toI32 (fat.fs.sectorsPerCluster * fat.fs.bytesPerSector))

/-! ## Cluster addressing -/

/-- The member `startSector` set by the constructor `Cluster::Cluster(fs, cluster)`:
`reservedSectors + hiddenSectors + sectorsPerFAT * allocationTables` is an `int`
expression, `(cluster - 2) * sectorsPerCluster` is a `uint32_t` expression, and
their sum is stored in a `uint32_t`. -/
def Cluster.startSector (g : Fat32Extend) (cluster : Nat) : Nat :=
  let sectorsPerFAT : Int := sectorsPerFAT g
  let base : Int :=
    toI32 (toI32 (g.reservedSectors + g.hiddenSectors)
      + toI32 (sectorsPerFAT * g.allocationTables))
  let rel : Nat := toU32 ((toU32 ((cluster : Int) - 2) : Int) * (toU32 g.sectorsPerCluster : Int))
  toU32 ((toU32 base : Int) + (rel : Int))

/-- `Cluster::getSector` of the cluster object built by `*fs.get(cluster)`. -/
def Cluster.getSector (fat : FileAllocationTable) (cluster : Nat) : Nat :=
  Cluster.startSector fat.fs cluster

/-- The expression
`reservedSectors + hiddenSectors + sectorsPerFAT * allocationTables + (cluster - 2) * sectorsPerCluster`
of `Cluster::Cluster` evaluated over the integers, without wrap-around, on the
field values that the program holds (`sectorsPerFAT` is the 16-bit field when
it is non-zero and the 32-bit field otherwise). -/
def sectorFormula (g : Fat32Extend) (c : Nat) : Int :=
  g.reservedSectors + g.hiddenSectors
    + (if g.sectorsPerFileAllocationTable ≠ 0 then g.sectorsPerFileAllocationTable
        else g.sectorsPerFileAllocationTable2) * g.allocationTables
    + ((c : Int) - 2) * g.sectorsPerCluster

/-! ## The geometry stored on the volume -/

/-- The unsigned numbers that the boot sector of a volume stores in the fields
of `struct Fat32Extend` (comment: the width of the field on the volume). -/
structure DiskGeometry where
  /-- Stored in 16 bits. -/
  bytesPerSector : Nat
  /-- Stored in 8 bits. -/
  sectorsPerCluster : Nat
  /-- Stored in 16 bits. -/
  reservedSectors : Nat
  /-- Stored in 8 bits. -/
  allocationTables : Nat
  /-- Stored in 16 bits. -/
  totalLogicalSectors : Nat
  /-- Stored in 16 bits. -/
  sectorsPerFileAllocationTable : Nat
  /-- Stored in 32 bits. -/
  hiddenSectors : Nat
  /-- Stored in 32 bits. -/
  totalLogicalSectors2 : Nat
  /-- Stored in 32 bits. -/
  sectorsPerFileAllocationTable2 : Nat
  /-- Stored in 32 bits. -/
  rootCluster : Nat
  /-- Stored in 16 bits. -/
  fsInformationSector : Nat
deriving DecidableEq, Repr

/-- The struct that the program holds after
`disk.read(reinterpret_cast<char *>(&bootSector), sizeof(bootSector))`: every
stored number read into the signed type of its C++ field. -/
def DiskGeometry.load (d : DiskGeometry) : Fat32Extend :=
  { bytesPerSector := toI16 d.bytesPerSector
    sectorsPerCluster := toI8 d.sectorsPerCluster
    reservedSectors := toI16 d.reservedSectors
    allocationTables := toI8 d.allocationTables
    totalLogicalSectors := toI16 d.totalLogicalSectors
    sectorsPerFileAllocationTable := toI16 d.sectorsPerFileAllocationTable
    hiddenSectors := toI32 d.hiddenSectors
    totalLogicalSectors2 := toI32 d.totalLogicalSectors2
    sectorsPerFileAllocationTable2 := toI32 d.sectorsPerFileAllocationTable2
    rootCluster := toI32 d.rootCluster
    fsInformationSector := toI16 d.fsInformationSector }

/-- The sector formula of the specification on the stored geometry:
`reservedSectors + hiddenSectors + sectorsPerFAT * numFATs + (c - 2) * sectorsPerCluster`,
where `sectorsPerFAT` is the legacy 16-bit field when it is non-zero and the
32-bit extended field otherwise. -/
def DiskGeometry.sector (d : DiskGeometry) (c : Nat) : Nat :=
  d.reservedSectors + d.hiddenSectors
    + (if d.sectorsPerFileAllocationTable ≠ 0 then d.sectorsPerFileAllocationTable
        else d.sectorsPerFileAllocationTable2) * d.allocationTables
    + (c - 2) * d.sectorsPerCluster

/-- The stored `reservedSectors`, `numFATs` and legacy `sectorsPerFAT` are below
the sign bit of the signed C++ field that receives them, so that the program
holds the stored numbers. -/
def DiskGeometry.TableAreaClear (d : DiskGeometry) : Prop :=
  d.reservedSectors < 32768 ∧ d.allocationTables < 128 ∧
  d.sectorsPerFileAllocationTable < 32768

instance (d : DiskGeometry) : Decidable d.TableAreaClear := by
  unfold DiskGeometry.TableAreaClear; infer_instance

/-! ## Faults and table access -/

/-- What can go wrong in a run: an access `table[index]` outside the array, a
division by zero, or a loop that is still running when the fuel is spent. -/
inductive Fault where
  | tableIndex (index : Int)
  | divideByZero
  | outOfFuel
deriving DecidableEq, Repr

/-- The result of a run: a value or a fault. -/
inductive Outcome (α : Type) where
  | ok (value : α)
  | fault (f : Fault)
deriving DecidableEq, Repr

/-- Sequencing of runs: the first fault ends the run. -/
def Outcome.bind {α β : Type} (x : Outcome α) (f : α → Outcome β) : Outcome β :=
  match x with
  | Outcome.ok a => f a
  | Outcome.fault e => Outcome.fault e

instance : Monad Outcome where
  pure := Outcome.ok
  bind := Outcome.bind

/-- The value of a run that ended without a fault. -/
def Outcome.value? {α : Type} (x : Outcome α) : Option α :=
  match x with
  | Outcome.ok a => some a
  | Outcome.fault _ => none

/-- The value of a run that ended without a fault, `d` otherwise. -/
def Outcome.getD {α : Type} (x : Outcome α) (d : α) : α :=
  match x with
  | Outcome.ok a => a
  | Outcome.fault _ => d

/-- The expression `table[i]` for an unsigned index. -/
def FileAllocationTable.tableAt (fat : FileAllocationTable) (i : Nat) : Outcome Nat :=
  match fat.table[i]? with
  | some e => pure e
  | none => Outcome.fault (Fault.tableIndex i)

/-- The expression `table[i]` for a signed index. -/
def FileAllocationTable.tableAtInt (fat : FileAllocationTable) (i : Int) : Outcome Nat :=
  if i < 0 then Outcome.fault (Fault.tableIndex i) else fat.tableAt i.toNat

/-! ## The chain iterator -/

/-- `iterator::operator++` on the member `current`: the table is consulted
unless `current` is `0x0fffffff`. -/
def iterator.next (fat : FileAllocationTable) (current : Nat) : Outcome Nat :=
  if current ≠ 0x0fffffff then fat.tableAt current else pure current

/-- The table index that `iterator::operator++` reads at position `current`, if
it reads one. -/
def iterator.lookup (current : Nat) : Option Nat :=
  if current ≠ 0x0fffffff then some current else none

/-- The loop `while (startCluster) { ++iter; startCluster--; }` of `File::read`. -/
def iterator.advance (fat : FileAllocationTable) : Nat → Nat → Outcome Nat
  | 0, current => pure current
  | n + 1, current => do
    let c ← iterator.next fat current
    iterator.advance fat n c

/-! ## Table scan -/

/-- The loop of `maxCluster()`: `n` iterations remain, `i` is the loop counter
and `m` the local `maxCluster`. -/
def FileAllocationTable.maxClusterLoop (fat : FileAllocationTable) :
    Nat → Nat → Nat → Outcome Nat
  | 0, _, m => pure m
  | n + 1, i, m => do
    let e ← fat.tableAt i
    FileAllocationTable.maxClusterLoop fat n (i + 1) (if e ≤ 0x0FFFFFEF then max m e else m)

/-- `FileAllocationTable::maxCluster`. -/
def FileAllocationTable.maxCluster (fat : FileAllocationTable) : Outcome Nat :=
  fat.maxClusterLoop (fat.tableSize - 2) 2 2

/-! ## Directory entries -/

/-- The `struct ShortDirEntry`, each field holding the value of its C++ field
(`int8_t`, `int16_t` or `int32_t`). -/
structure ShortDirEntry where
  fileName : List Int
  extendName : List Int
  attr : Int
  reserved : Int
  createTimeMs : Int
  createTime : Int
  createDate : Int
  accessDate : Int
  startClusterHigh : Int
  modifyTime : Int
  modifyDate : Int
  startClusterLow : Int
  length : Int
deriving DecidableEq, Repr

/-- Memory: the byte stored at each offset. -/
abbrev Mem := Nat → Nat

/-- An `int8_t` read from memory. -/
def i8At (m : Mem) (i : Nat) : Int := toI8 (m i)

/-- An `int16_t` read from memory (little-endian). -/
def i16At (m : Mem) (i : Nat) : Int := toI16 ((m i : Int) + 256 * (m (i + 1) : Int))

/-- An `int32_t` read from memory (little-endian). -/
def i32At (m : Mem) (i : Nat) : Int :=
  toI32 ((m i : Int) + 256 * (m (i + 1) : Int) + 65536 * (m (i + 2) : Int)
    + 16777216 * (m (i + 3) : Int))

/-- The `ShortDirEntry` object stored in memory at byte offset `off` (the
layout of the 32-byte struct). -/
def ShortDirEntry.decode (m : Mem) (off : Nat) : ShortDirEntry :=
  { fileName := (List.range 8).map (fun k => i8At m (off + k))
    extendName := (List.range 3).map (fun k => i8At m (off + 8 + k))
    attr := i8At m (off + 11)
    reserved := i8At m (off + 12)
    createTimeMs := i8At m (off + 13)
    createTime := i16At m (off + 14)
    createDate := i16At m (off + 16)
    accessDate := i16At m (off + 18)
    startClusterHigh := i16At m (off + 20)
    modifyTime := i16At m (off + 22)
    modifyDate := i16At m (off + 24)
    startClusterLow := i16At m (off + 26)
    length := i32At m (off + 28) }

/-- The element `fileName[k]`. -/
def ShortDirEntry.name (e : ShortDirEntry) (k : Nat) : Int := e.fileName.getD k 0

/-- The value `(entry.startClusterHigh << 16) + entry.startClusterLow` stored in
a `uint32_t`, as computed in `File::read` and in `walk`. -/
def ShortDirEntry.startCluster (e : ShortDirEntry) : Nat :=
  toU32 (toI32 (toI32 (e.startClusterHigh * 65536) + e.startClusterLow))

/-- The start cluster that a directory record stores: `high * 65536 + low` of
its two unsigned 16-bit fields.  A held `int16_t` value `v` stands for the
stored number `v mod 65536`. -/
def ShortDirEntry.storedCluster (e : ShortDirEntry) : Nat :=
  (e.startClusterHigh % 65536).toNat * 65536 + (e.startClusterLow % 65536).toNat

/-- The two start-cluster fields hold `int16_t` values, and the stored low half
is below `0x8000`: its sign bit is clear. -/
def ShortDirEntry.LowClear (e : ShortDirEntry) : Prop :=
  (-32768 ≤ e.startClusterHigh ∧ e.startClusterHigh ≤ 32767) ∧
  (0 ≤ e.startClusterLow ∧ e.startClusterLow ≤ 32767)

instance (e : ShortDirEntry) : Decidable e.LowClear := by
  unfold ShortDirEntry.LowClear; infer_instance

/-- `File::size`: the field `length` returned as `uint32_t`. -/
def File.size (e : ShortDirEntry) : Nat := toU32 e.length

/-- `File::isDir`: `entry.attr & 0x10`. -/
def File.isDir (e : ShortDirEntry) : Bool := (e.attr / 16) % 2 = 1

/-! ## Reading clusters -/

/-- The effect of copying `n` bytes from `src` at `srcOff` to `dst` at `dstOff`. -/
def memcpy (dst : Mem) (dstOff : Nat) (src : Mem) (srcOff : Nat) (n : Nat) : Mem :=
  fun i => if dstOff ≤ i ∧ i < dstOff + n then src (srcOff + (i - dstOff)) else dst i

/-- `FileAllocationTable::readSector(buf, sector, size)`: seek to
`sector * bytesPerSector` and read `min(bytesPerSector, (int16_t)size)` bytes
into the buffer that starts at offset `off` of `buf`. -/
def FileAllocationTable.readSector (fat : FileAllocationTable) (buf : Mem) (off : Nat)
    (sector : Int) (size : Int) : Mem :=
  let pos : Int := sector * fat.fs.bytesPerSector
  let count : Int := min fat.fs.bytesPerSector (toI16 size)
  if 0 ≤ pos then memcpy buf off fat.disk pos.toNat count.toNat else buf

/-- `Cluster::read(buffer, size)` on the cluster object of `cluster`. -/
def Cluster.read (fat : FileAllocationTable) (cluster : Nat) (buf : Mem) (off : Nat)
    (size : Int) : Mem :=
  let size : Int := if size = -1 then (fat.clusterBytes : Int) else size
  let size : Int := if size > (fat.clusterBytes : Int) then (fat.clusterBytes : Int) else size
  fat.readSector buf off (Cluster.startSector fat.fs cluster) size

/-- The variables of the main loop of `File::read`: `cursor`, `startBytes`, the
iterator, the destination memory with the current value of the pointer
`buffer` (as an offset from its initial value), and the array `temp`.  The
field `reads` is a log: the `sector` argument of every call of `readSector`
made so far, in order. -/
structure ReadState where
  cursor : Int
  startBytes : Nat
  iter : Nat
  buf : Mem
  bufOff : Nat
  temp : Mem
  reads : List Nat

/-- The loop `while (cursor < length) { ... ++iter; }` of `File::read`; every
iteration costs one unit of fuel. -/
def File.readLoop (fat : FileAllocationTable) (length : Int) :
    Nat → ReadState → Outcome ReadState
  | 0, s => if s.cursor < length then Outcome.fault Fault.outOfFuel else pure s
  | fuel + 1, s =>
    if s.cursor < length then
      let clusterBytes : Nat := fat.clusterBytes
      let s1 : ReadState :=
        if s.startBytes ≠ 0 then
          let remainSize : Nat := toU32 ((clusterBytes : Int) - (s.startBytes : Int))
          let temp := Cluster.read fat s.iter s.temp 0 remainSize
          { cursor := s.cursor + remainSize
            startBytes := 0
            iter := s.iter
            buf := memcpy s.buf s.bufOff temp s.startBytes remainSize
            bufOff := s.bufOff + remainSize + remainSize
            temp := temp
            reads := s.reads ++ [Cluster.startSector fat.fs s.iter] }
        else
          let toRead : Nat := toU32 (min (length - s.cursor) (clusterBytes : Int))
          { cursor := s.cursor + toRead
            startBytes := 0
            iter := s.iter
            buf := Cluster.read fat s.iter s.buf s.bufOff toRead
            bufOff := s.bufOff + toRead
            temp := s.temp
            reads := s.reads ++ [Cluster.startSector fat.fs s.iter] }
      do
        let it ← iterator.next fat s1.iter
        File.readLoop fat length fuel { s1 with iter := it }
    else pure s

/-- The body of `File::read(buffer, start, length)` for the file of directory
entry `e`, up to the state in which the loop ends.  `buf` is the memory that
`buffer` points into (offset 0 is `buffer`), `temp0` the indeterminate content
of the local array `temp`. -/
def File.run (fat : FileAllocationTable) (e : ShortDirEntry) (buf : Mem) (temp0 : Mem)
    (start : Int) (length : Int) : Outcome ReadState := do
  let clusterBytes : Nat := fat.clusterBytes
  if clusterBytes = 0 then Outcome.fault Fault.divideByZero else
  let iter0 : Nat := e.startCluster
  let skip : Nat := toU32 (Int.tdiv start clusterBytes)
  let iter ← iterator.advance fat skip iter0
  let startBytes : Nat := toU32 (Int.tmod start clusterBytes)
  let length : Int := min length (if File.isDir e then LONG_MAX else (File.size e : Int))
  File.readLoop fat length length.toNat
    { cursor := 0, startBytes := startBytes, iter := iter, buf := buf, bufOff := 0,
      temp := temp0, reads := [] }

/-- `File::read(buffer, start, length)` for the file of directory entry `e`:
the memory after the call. -/
def File.read (fat : FileAllocationTable) (e : ShortDirEntry) (buf : Mem) (temp0 : Mem)
    (start : Int) (length : Int) : Outcome Mem := do
  let s ← File.run fat e buf temp0 start length
  pure s.buf

/-- The sectors at which `File::read(buffer, start, length)` reads the image:
the `sector` arguments of its calls of `readSector`, in order. -/
def File.reads (fat : FileAllocationTable) (e : ShortDirEntry) (buf : Mem) (temp0 : Mem)
    (start : Int) (length : Int) : Outcome (List Nat) := do
  let s ← File.run fat e buf temp0 start length
  pure s.reads

/-! ## The directory entry stream -/

/-- The members of `File::DirEntryIterator`; `entries` is the content of the
array behind the pointer `entries`.  The field `reads` is a log: the sectors
at which the refills of this iterator have read the image, in order. -/
structure DirEntryIterator where
  fileCursor : Int
  entries : Mem
  bytesPerSector : Int
  filesPerSector : Int
  currentMaxFileNum : Int
  nextFileOffset : Int
  reads : List Nat

/-- The iterator `File::begin()`, i.e. `DirEntryIterator(file, 0)`: `heap0` is
the indeterminate content of the freshly allocated array `entries`.  The
quotient `bytesPerSector / sizeof(ShortDirEntry)` is an unsigned 64-bit division
stored in an `int`. -/
def File.begin (fat : FileAllocationTable) (heap0 : Mem) : DirEntryIterator :=
  { fileCursor := 0
    entries := heap0
    bytesPerSector := fat.fs.bytesPerSector
    filesPerSector := toI32 ((fat.fs.bytesPerSector % 18446744073709551616) / 32)
    currentMaxFileNum := 0
    nextFileOffset := 0
    reads := [] }

/-- `DirEntryIterator::loadFile` on the directory of entry `dir`. -/
def DirEntryIterator.loadFile (fat : FileAllocationTable) (dir : ShortDirEntry) (stack : Mem)
    (it : DirEntryIterator) : Outcome DirEntryIterator := do
  let s ← File.run fat dir it.entries stack it.nextFileOffset it.bytesPerSector
  pure { it with
    entries := s.buf
    nextFileOffset := toI32 (it.nextFileOffset + it.bytesPerSector)
    currentMaxFileNum := toI32 (it.currentMaxFileNum + it.filesPerSector)
    reads := it.reads ++ s.reads }

/-- `DirEntryIterator::operator*`: the entry under the cursor and the iterator
after the call (which may have refilled its buffer). -/
def DirEntryIterator.deref (fat : FileAllocationTable) (dir : ShortDirEntry) (stack : Mem)
    (it : DirEntryIterator) : Outcome (ShortDirEntry × DirEntryIterator) := do
  let it1 ← if it.fileCursor = it.currentMaxFileNum then DirEntryIterator.loadFile fat dir stack it
    else pure it
  if it1.filesPerSector = 0 then Outcome.fault Fault.divideByZero else
  let index : Int := Int.tmod it1.fileCursor it1.filesPerSector
  pure (ShortDirEntry.decode it1.entries (32 * index.toNat), it1)

/-- `DirEntryIterator::operator++`. -/
def DirEntryIterator.incr (fat : FileAllocationTable) (dir : ShortDirEntry) (stack : Mem)
    (it : DirEntryIterator) : Outcome DirEntryIterator :=
  let it1 : DirEntryIterator := { it with fileCursor := it.fileCursor + 1 }
  if it1.currentMaxFileNum = it1.fileCursor then DirEntryIterator.loadFile fat dir stack it1
  else pure it1

/-- `DirEntryIterator::operator!=` against `File::end()`, whose `fileCursor` is
`-1`: the test is `(**this).fileName[0] != 0`. -/
def DirEntryIterator.neEnd (fat : FileAllocationTable) (dir : ShortDirEntry) (stack : Mem)
    (it : DirEntryIterator) : Outcome (Bool × DirEntryIterator) := do
  let (e, it1) ← DirEntryIterator.deref fat dir stack it
  pure (e.name 0 != 0, it1)

/-- The entries produced by `for (auto iter = begin(); iter != end(); ++iter)`
with body `*iter`, from iterator state `it` on; every iteration costs one unit
of fuel. -/
def DirEntryIterator.collect (fat : FileAllocationTable) (dir : ShortDirEntry) (stack : Mem) :
    Nat → DirEntryIterator → Outcome (List ShortDirEntry)
  | 0, _ => Outcome.fault Fault.outOfFuel
  | fuel + 1, it => do
    let (more, it1) ← DirEntryIterator.neEnd fat dir stack it
    if more then
      let (e, it2) ← DirEntryIterator.deref fat dir stack it1
      let it3 ← DirEntryIterator.incr fat dir stack it2
      let rest ← DirEntryIterator.collect fat dir stack fuel it3
      pure (e :: rest)
    else pure []

/-- The first `n` iterations of `for (auto iter = begin(); iter != end(); ++iter)`
with body `*iter`, from iterator state `it` on: the entries yielded, the
iterator afterwards, and whether the loop has ended (the test `iter != end()`
has failed) within these iterations. -/
def DirEntryIterator.take (fat : FileAllocationTable) (dir : ShortDirEntry) (stack : Mem) :
    Nat → DirEntryIterator → Outcome (List ShortDirEntry × DirEntryIterator × Bool)
  | 0, it => pure ([], it, false)
  | n + 1, it => do
    let (more, it1) ← DirEntryIterator.neEnd fat dir stack it
    if more then
      let (e, it2) ← DirEntryIterator.deref fat dir stack it1
      let it3 ← DirEntryIterator.incr fat dir stack it2
      let (rest, itf, ended) ← DirEntryIterator.take fat dir stack n it3
      pure (e :: rest, itf, ended)
    else pure ([], it1, true)

/-- The entries of directory `dir`, enumerated from `begin()` to `end()`. -/
def File.entries (fat : FileAllocationTable) (dir : ShortDirEntry) (stack heap0 : Mem)
    (fuel : Nat) : Outcome (List ShortDirEntry) :=
  DirEntryIterator.collect fat dir stack fuel (File.begin fat heap0)

/-! ## The root directory -/

/-- The loop `do { rootClusterCount++; rootCluster = table[rootCluster]; }
while (rootCluster <= 0x0FFFFFEF)` of `root()`; every iteration costs one unit
of fuel and performs one table access.  The result is the final
`rootClusterCount`. -/
def FileAllocationTable.rootLoop (fat : FileAllocationTable) : Nat → Int → Int → Outcome Int
  | 0, _, _ => Outcome.fault Fault.outOfFuel
  | fuel + 1, rootCluster, rootClusterCount => do
    let e ← fat.tableAtInt rootCluster
    let next : Int := toI32 e
    if next ≤ 0x0FFFFFEF then
      FileAllocationTable.rootLoop fat fuel next (toI32 (rootClusterCount + 1))
    else pure (toI32 (rootClusterCount + 1))

/-- `FileAllocationTable::root`: the entry of the synthesised root file. -/
def FileAllocationTable.root (fat : FileAllocationTable) (fuel : Nat) : Outcome ShortDirEntry := do
  let rootClusterCount ← fat.rootLoop fuel fat.fs.rootCluster 1
  pure
    { fileName := [47, 0, 0, 0, 0, 0, 0, 0]
      extendName := [0, 0, 0]
      attr := 0x10
      reserved := 0
      createTimeMs := 0
      createTime := 0
      createDate := 0
      accessDate := 0
      startClusterHigh := toI16 (fat.fs.rootCluster / 65536)
      modifyTime := 0
      modifyDate := 0
      startClusterLow := toI16 (fat.fs.rootCluster % 65536)
      length := toI32 (toI32 (rootClusterCount * fat.fs.bytesPerSector) * fat.fs.sectorsPerCluster) }

/-! ## The tree walk -/

/-- The loop `while (startCluster > 2 && startCluster != 0x0FFFFFFF)` of `walk`,
returning the final `maxClusterF`; every iteration costs one unit of fuel and
performs one table access. -/
def walkChain (fat : FileAllocationTable) : Nat → Nat → Nat → Outcome Nat
  | 0, startCluster, maxClusterF =>
    if startCluster > 2 ∧ startCluster ≠ 0x0FFFFFFF then Outcome.fault Fault.outOfFuel
    else pure maxClusterF
  | fuel + 1, startCluster, maxClusterF =>
    if startCluster > 2 ∧ startCluster ≠ 0x0FFFFFFF then do
      let e ← fat.tableAt startCluster
      walkChain fat fuel e (max maxClusterF startCluster)
    else pure maxClusterF

/-- `isprint` in the "C" locale. -/
def isprint (c : Int) : Bool := 32 ≤ c ∧ c ≤ 126

/-- The test of `walk` that skips a record before anything else is done with
it: `!isprint(entry.fileName[0]) || entry.attr == 0x0F`. -/
def walkSkips (e : ShortDirEntry) : Bool := !isprint (e.name 0) || e.attr == 0x0F

/-- The test of `walk` that ends the processing of a record before it is
counted: the nested `if` on `fileName[0]`, `fileName[1]` and `fileName[2]`. -/
def walkIsDot (e : ShortDirEntry) : Bool :=
  if e.name 0 = 46 then
    if e.name 1 = 46 then
      if e.name 2 = 32 then true else false
    else if e.name 1 = 32 then true
    else false
  else false

/-- The globals `files` and `maxClusterF`, and the lines printed by `walk`: the
nesting level and the entry whose `fileName` and `extendName` the line shows. -/
structure WalkState where
  files : Int
  maxClusterF : Nat
  out : List (Nat × ShortDirEntry)
deriving DecidableEq, Repr

/-- The `for` loop of `walk(fs, root, level)` from iterator state `it` on.
One unit of fuel pays for one iteration; the chain loop and a recursive call
receive the fuel that is left. -/
def walkLoop (fat : FileAllocationTable) (stack heap0 : Mem) :
    Nat → ShortDirEntry → Nat → DirEntryIterator → WalkState → Outcome WalkState
  | 0, _, _, _, _ => Outcome.fault Fault.outOfFuel
  | fuel + 1, root, level, it, st => do
    let (more, it1) ← DirEntryIterator.neEnd fat root stack it
    if more then
      let (entry, it2) ← DirEntryIterator.deref fat root stack it1
      if walkSkips entry then
        let it3 ← DirEntryIterator.incr fat root stack it2
        walkLoop fat stack heap0 fuel root level it3 st
      else
        let maxF ← walkChain fat fuel entry.startCluster st.maxClusterF
        let st1 : WalkState :=
          { st with maxClusterF := maxF, out := st.out ++ [(level, entry)] }
        if walkIsDot entry then
          let it3 ← DirEntryIterator.incr fat root stack it2
          walkLoop fat stack heap0 fuel root level it3 st1
        else
          let st2 : WalkState := { st1 with files := toI32 (st1.files + 1) }
          let st3 ← if File.isDir entry then
              walkLoop fat stack heap0 fuel entry (level + 1) (File.begin fat heap0) st2
            else pure st2
          let it3 ← DirEntryIterator.incr fat root stack it2
          walkLoop fat stack heap0 fuel root level it3 st3
    else pure st

/-- `walk(fs, root)` with the globals in their initial state. -/
def walk (fat : FileAllocationTable) (stack heap0 : Mem) (fuel : Nat) (root : ShortDirEntry) :
    Outcome WalkState :=
  walkLoop fat stack heap0 fuel root 0 (File.begin fat heap0)
    { files := 0, maxClusterF := 0, out := [] }

/-! ## The usage estimate -/

/-- What `main` prints after the walk. -/
structure Report where
  maxCluster : Nat
  maxClusterF : Nat
  endSize : Nat
  files : Int
deriving DecidableEq, Repr

/-- The value `(maxSector + 1) * fs.fs.bytesPerSector` printed as "End size",
where `maxSector = (*fs.get(maxCluster)).getSector()`. -/
def endSize (fat : FileAllocationTable) (maxCluster : Nat) : Nat :=
  let maxSector : Nat := Cluster.getSector fat maxCluster
  toU32 ((toU32 ((maxSector : Int) + 1) : Int) * (toU32 fat.fs.bytesPerSector : Int))

/-- The statements of `main` that follow the walk.  `maxSector` is taken from
the result of `maxCluster()`; the later assignment
`maxCluster = max(maxCluster, maxClusterF)` is not read by any statement. -/
def mainReport (fat : FileAllocationTable) (st : WalkState) : Outcome Report := do
  let maxCluster ← fat.maxCluster
  pure
    { maxCluster := maxCluster
      maxClusterF := st.maxClusterF
      endSize := endSize fat maxCluster
      files := st.files }

/-- The program `main` on an opened image. -/
def main (fat : FileAllocationTable) (stack heap0 : Mem) (fuel : Nat) : Outcome Report := do
  let root ← fat.root fuel
  let st ← walk fat stack heap0 fuel root
  mainReport fat st

/-! ## Reference content of a chain -/

/-- Byte `j` of the cluster `c` on the image, the cluster being located by
`Cluster::getSector`. -/
def clusterByte (fat : FileAllocationTable) (c : Nat) (j : Nat) : Nat :=
  fat.disk (Cluster.getSector fat c * fat.fs.bytesPerSector.toNat + j)

/-- Byte `j` of the concatenation of the contents of the clusters of `chain`
(each `clusterBytes` long); `0` past the end. -/
def chainByte (fat : FileAllocationTable) (chain : List Nat) (j : Nat) : Nat :=
  match chain[j / fat.clusterBytes]? with
  | some c => clusterByte fat c (j % fat.clusterBytes)
  | none => 0

/-! ## Concrete images -/

/-- A 16-bit value as two little-endian bytes. -/
def le16 (v : Nat) : List Nat := [v % 256, v / 256 % 256]

/-- A 32-bit value as four little-endian bytes. -/
def le32 (v : Nat) : List Nat := [v % 256, v / 256 % 256, v / 65536 % 256, v / 16777216 % 256]

/-- The 32 bytes of a directory record with the given 11 name bytes, attribute
byte, start cluster and length (time stamps zero). -/
def mkRecord (name : List Nat) (attr : Nat) (cluster : Nat) (len : Nat) : List Nat :=
  name ++ [attr] ++ List.replicate 8 0 ++ le16 (cluster / 65536) ++ [0, 0, 0, 0]
    ++ le16 (cluster % 65536) ++ le32 len

/-- An image that holds the given byte strings at the given offsets and zero
bytes elsewhere. -/
def imageOf : List (Nat × List Nat) → Nat → Nat
  | [], _ => 0
  | (base, bytes) :: rest, a =>
    if base ≤ a ∧ a < base + bytes.length then bytes.getD (a - base) 0 else imageOf rest a

/-- The geometry of the minimal image: 512-byte sectors, one sector per
cluster, 32 reserved sectors, one table of one sector. -/
def minimalGeometry : Fat32Extend :=
  { bytesPerSector := 512
    sectorsPerCluster := 1
    reservedSectors := 32
    allocationTables := 1
    totalLogicalSectors := 0
    sectorsPerFileAllocationTable := 0
    hiddenSectors := 0
    totalLogicalSectors2 := 36
    sectorsPerFileAllocationTable2 := 1
    rootCluster := 2
    fsInformationSector := 1 }

/-- The minimal image: three allocated single-cluster chains (root directory in
cluster 2, directory `SUBDIR` in cluster 3, file `FILE.TXT` in cluster 4); the
root holds the entry of `SUBDIR`, which holds `.`, `..` and `FILE.TXT`. -/
def minimalImage : FileAllocationTable :=
  { tableSize := 128
    table := [0x0FFFFFF8, 0xFFFFFFFF, 0x0FFFFFFF, 0x0FFFFFFF, 0x0FFFFFFF] ++ List.replicate 123 0
    fs := minimalGeometry
    disk := imageOf
      [ (33 * 512, mkRecord [83, 85, 66, 68, 73, 82, 32, 32, 32, 32, 32] 0x10 3 0),
        (34 * 512, mkRecord [46, 32, 32, 32, 32, 32, 32, 32, 32, 32, 32] 0x10 3 0
           ++ mkRecord [46, 46, 32, 32, 32, 32, 32, 32, 32, 32, 32] 0x10 0 0
           ++ mkRecord [70, 73, 76, 69, 32, 32, 32, 32, 84, 88, 84] 0x20 4 5),
        (35 * 512, [104, 101, 108, 108, 111]) ] }

/-- An image with the minimal geometry and a file of two clusters, 4 and 5;
every byte of the data area is non-zero. -/
def spanImage : FileAllocationTable :=
  { tableSize := 128
    table := [0x0FFFFFF8, 0xFFFFFFFF, 0x0FFFFFFF, 0x0FFFFFFF, 5, 0x0FFFFFFF] ++ List.replicate 122 0
    fs := minimalGeometry
    disk := fun a => a % 251 + 1 }

/-- The directory entry of the two-cluster file of `spanImage`: 1024 bytes
starting in cluster 4. -/
def spanFile : ShortDirEntry :=
  ShortDirEntry.decode
    (fun i => (mkRecord [68, 65, 84, 65, 32, 32, 32, 32, 66, 73, 78] 0x20 4 1024).getD i 0) 0

/-- The geometry of `minimalGeometry` with two sectors per cluster. -/
def twoSectorGeometry : Fat32Extend := { minimalGeometry with sectorsPerCluster := 2 }

/-- The name bytes `Fdd     TXT` of the `k`-th file of `wideImage`. -/
def wideName (k : Nat) : List Nat :=
  [70, 48 + k / 10, 48 + k % 10, 32, 32, 32, 32, 32, 84, 88, 84]

/-- The `k`-th record stored in the root directory of `wideImage`: the empty
file `Fdd.TXT`. -/
def wideRecord (k : Nat) : List Nat := mkRecord (wideName k) 0x20 0 0

/-- An image with two sectors per cluster whose root directory (cluster 2,
sectors 33 and 34) holds the 17 records `wideRecord 0` to `wideRecord 16`
followed by zero bytes: 16 records in the first sector, one in the second. -/
def wideImage : FileAllocationTable :=
  { tableSize := 128
    table := [0x0FFFFFF8, 0xFFFFFFFF, 0x0FFFFFFF] ++ List.replicate 125 0
    fs := twoSectorGeometry
    disk := fun a =>
      if 33 * 512 ≤ a ∧ a < 33 * 512 + 17 * 32 then
        (wideRecord ((a - 33 * 512) / 32)).getD ((a - 33 * 512) % 32) 0
      else 0 }

/-- The entry of the root directory of an image whose root is cluster 2, as
built by `root()` for a root chain of one cluster. -/
def rootEntryOf (fat : FileAllocationTable) : ShortDirEntry :=
  { fileName := [47, 0, 0, 0, 0, 0, 0, 0]
    extendName := [0, 0, 0]
    attr := 0x10
    reserved := 0
    createTimeMs := 0
    createTime := 0
    createDate := 0
    accessDate := 0
    startClusterHigh := 0
    modifyTime := 0
    modifyDate := 0
    startClusterLow := 2
    length := 2 * fat.fs.bytesPerSector * fat.fs.sectorsPerCluster }

/-- A record of 32 bytes as the `ShortDirEntry` it is read as. -/
def recordEntry (r : List Nat) : ShortDirEntry :=
  ShortDirEntry.decode (fun i => r.getD i 0) 0

/-- A geometry with 4096-byte sectors, 64 sectors per cluster and a table of
131072 sectors, i.e. `tableSizeOf` gives 134217728 entries. -/
def largeGeometry : Fat32Extend :=
  { minimalGeometry with
    bytesPerSector := 4096
    sectorsPerCluster := 64
    sectorsPerFileAllocationTable2 := 131072
    totalLogicalSectors2 := 2147483647 }

/-- The geometry of `minimalGeometry` with `sectorsPerCluster = 0`. -/
def zeroClusterGeometry : Fat32Extend := { minimalGeometry with sectorsPerCluster := 0 }

/-- The stored geometry that the program holds as `minimalGeometry`. -/
def minimalDisk : DiskGeometry :=
  { bytesPerSector := 512
    sectorsPerCluster := 1
    reservedSectors := 32
    allocationTables := 1
    totalLogicalSectors := 0
    sectorsPerFileAllocationTable := 0
    hiddenSectors := 0
    totalLogicalSectors2 := 36
    sectorsPerFileAllocationTable2 := 1
    rootCluster := 2
    fsInformationSector := 1 }

/-- The stored geometry that the program holds as `largeGeometry`. -/
def largeDisk : DiskGeometry :=
  { minimalDisk with
    bytesPerSector := 4096
    sectorsPerCluster := 64
    sectorsPerFileAllocationTable2 := 131072
    totalLogicalSectors2 := 2147483647 }

/-- The stored geometry that the program holds as `zeroClusterGeometry`. -/
def zeroClusterDisk : DiskGeometry := { minimalDisk with sectorsPerCluster := 0 }

/-- The minimal stored geometry with 128 sectors per cluster (the byte `0x80`). -/
def signedDisk : DiskGeometry := { minimalDisk with sectorsPerCluster := 128 }

/-- A table of the minimal geometry whose entry 2 has a bit set above the low
28 bits (its low 28 bits are the cluster number 5); all other clusters are
free. -/
def highBitsTable : FileAllocationTable :=
  { tableSize := 128
    table := [0x0FFFFFF8, 0x0FFFFFFF, 0x10000005] ++ List.replicate 125 0
    fs := minimalGeometry
    disk := fun _ => 0 }

/-- The reading of the table scan in the words of the specification: the
greatest entry value at an index in `[2, tableSize)`, masked to its low 28
bits, that is neither free (0), reserved or bad (`0x0FFFFFF0..0x0FFFFFF7`) nor
end-of-chain (`>= 0x0FFFFFF8`); 2 when there is none. -/
def maskedMaxSpec (fat : FileAllocationTable) : Nat :=
  (((fat.table.take fat.tableSize).drop 2).map (fun e => e % 268435456)).foldl
    (fun m v => if v ≠ 0 ∧ v < 0x0FFFFFF0 then max m v else m) 2

/-- The minimal image with the end-of-chain marker `0x0FFFFFF8` in place of
`0x0FFFFFFF` in every chain. -/
def markerImage : FileAllocationTable :=
  { minimalImage with
    table := [0x0FFFFFF8, 0xFFFFFFFF, 0x0FFFFFF8, 0x0FFFFFF8, 0x0FFFFFF8] ++ List.replicate 123 0 }

/-! ## Further concrete inputs -/

/-- A record whose start cluster is `0x8000`: the on-disk fields are
`high = 0` and `low = 0x8000`. -/
def signRecord : List Nat := mkRecord [66, 73, 71, 32, 32, 32, 32, 32, 66, 73, 78] 0x20 0x8000 100

/-- A directory entry of `spanImage` that records 2048 bytes for the chain
4 -> 5 of two clusters (1024 bytes). -/
def truncFile : ShortDirEntry :=
  recordEntry (mkRecord [84, 82, 85, 78, 67, 32, 32, 32, 66, 73, 78] 0x20 4 2048)

/-- The minimal geometry with a root directory (cluster 2) that holds the one
record `..A.TXT`, a regular empty file. -/
def dotDotImage : FileAllocationTable :=
  { minimalImage with
    table := [0x0FFFFFF8, 0xFFFFFFFF, 0x0FFFFFFF] ++ List.replicate 125 0
    disk := imageOf [(33 * 512, mkRecord [46, 46, 65, 32, 32, 32, 32, 32, 84, 88, 84] 0x20 0 0)] }

/-- The record `..A.TXT` of `dotDotImage`. -/
def dotDotEntry : ShortDirEntry :=
  recordEntry (mkRecord [46, 46, 65, 32, 32, 32, 32, 32, 84, 88, 84] 0x20 0 0)

/-- An image whose root directory is cluster 3 and holds one file, `DATA.BIN`,
on the chain 5 -> 2 -> 7. -/
def crossImage : FileAllocationTable :=
  { minimalImage with
    table := [0x0FFFFFF8, 0xFFFFFFFF, 7, 0x0FFFFFFF, 0, 2, 0, 0x0FFFFFFF] ++ List.replicate 120 0
    fs := { minimalGeometry with rootCluster := 3 }
    disk := imageOf
      [(34 * 512, mkRecord [68, 65, 84, 65, 32, 32, 32, 32, 66, 73, 78] 0x20 5 1536)] }

/-- The file entry `DATA.BIN` of `crossImage`. -/
def crossEntry : ShortDirEntry :=
  recordEntry (mkRecord [68, 65, 84, 65, 32, 32, 32, 32, 66, 73, 78] 0x20 5 1536)

/-- The minimal image with a self-loop in the chain of `SUBDIR`: entry 3 of the
table is 3. -/
def loopImage : FileAllocationTable :=
  { minimalImage with
    table := [0x0FFFFFF8, 0xFFFFFFFF, 0x0FFFFFFF, 3, 0x0FFFFFFF] ++ List.replicate 123 0 }

/-- The minimal image with a self-loop in the chain of the root directory:
entry 2 of the table is 2. -/
def rootLoopImage : FileAllocationTable :=
  { minimalImage with
    table := [0x0FFFFFF8, 0xFFFFFFFF, 2, 0x0FFFFFFF, 0x0FFFFFFF] ++ List.replicate 123 0 }

/-- An image with the minimal geometry whose root directory occupies the chain
2 -> 5 -> 0x0FFFFFFF (sectors 33 and 36) and stores the 32 records
`wideRecord 0` to `wideRecord 31`: both clusters are full, no record of the
chain starts with a zero byte.  All other bytes of the image are zero. -/
def fullImage : FileAllocationTable :=
  { tableSize := 128
    table := [0x0FFFFFF8, 0xFFFFFFFF, 5, 0, 0, 0x0FFFFFFF] ++ List.replicate 122 0
    fs := minimalGeometry
    disk := fun a =>
      if 33 * 512 ≤ a ∧ a < 34 * 512 then
        (wideRecord ((a - 33 * 512) / 32)).getD ((a - 33 * 512) % 32) 0
      else if 36 * 512 ≤ a ∧ a < 37 * 512 then
        (wideRecord (16 + (a - 36 * 512) / 32)).getD ((a - 36 * 512) % 32) 0
      else 0 }

/-- The entry of the root directory of `crossImage` (cluster 3), as built by
`root()`. -/
def crossRoot : ShortDirEntry := { rootEntryOf crossImage with startClusterLow := 3 }

/-- The state in which the walk of `crossImage` ends. -/
def crossWalk : WalkState := { files := 1, maxClusterF := 5, out := [(0, crossEntry)] }

/-- The entry `SUBDIR` of the root directory of `minimalImage`. -/
def subdirEntry : ShortDirEntry :=
  recordEntry (mkRecord [83, 85, 66, 68, 73, 82, 32, 32, 32, 32, 32] 0x10 3 0)

/-- The entry `.` of the directory `SUBDIR` of `minimalImage`. -/
def dotEntry : ShortDirEntry :=
  recordEntry (mkRecord [46, 32, 32, 32, 32, 32, 32, 32, 32, 32, 32] 0x10 3 0)

/-- The iterator over `SUBDIR` of `minimalImage` after the first test
`iter != end()`. -/
def subdirTested : DirEntryIterator :=
  ((DirEntryIterator.neEnd minimalImage subdirEntry (fun _ => 0)
      (File.begin minimalImage (fun _ => 0))).getD
    (false, File.begin minimalImage (fun _ => 0))).2

/-- The iterator over `SUBDIR` of `minimalImage` after the first `*iter`. -/
def subdirYielded : DirEntryIterator :=
  ((DirEntryIterator.deref minimalImage subdirEntry (fun _ => 0) subdirTested).getD
    (dotEntry, subdirTested)).2

/-- The iterator over `SUBDIR` of `minimalImage` after the first `++iter`. -/
def subdirNext : DirEntryIterator :=
  (DirEntryIterator.incr minimalImage subdirEntry (fun _ => 0) subdirYielded).getD subdirYielded

/-- The minimal stored geometry with sectors of 48 bytes. -/
def oddDisk : DiskGeometry := { minimalDisk with bytesPerSector := 48 }

/-- An image with sectors of 48 bytes and one sector per cluster (a table of
12 entries).  The root directory occupies the chain 2 -> 3 -> 0x0FFFFFFF: the
sector of cluster 2 (byte offset 1584) starts with the record `A`, the sector of
cluster 3 (byte offset 1632) with the record `B`; all other bytes are zero. -/
def oddImage : FileAllocationTable :=
  { tableSize := 12
    table := [0x0FFFFFF8, 0xFFFFFFFF, 3, 0x0FFFFFFF] ++ List.replicate 8 0
    fs := oddDisk.load
    disk := imageOf
      [ (33 * 48, mkRecord [65, 32, 32, 32, 32, 32, 32, 32, 32, 32, 32] 0x20 0 0),
        (34 * 48, mkRecord [66, 32, 32, 32, 32, 32, 32, 32, 32, 32, 32] 0x20 0 0) ] }

/-- The entry of the root directory of `oddImage`, as built by `root()`. -/
def oddRoot : ShortDirEntry := { rootEntryOf oddImage with length := 144 }

/-- The entry of the root directory of `fullImage`, as built by `root()`. -/
def fullRoot : ShortDirEntry := { rootEntryOf fullImage with length := 1536 }

/-- The cluster `c` lies on the part of the chain of head `h` that the chain
loop of `walk` follows: the clusters from `h` on, as long as the value is
greater than 2 and different from `0x0FFFFFFF`. -/
inductive Followed (fat : FileAllocationTable) : Nat → Nat → Prop where
  | head (h : Nat) (h2 : 2 < h) (hm : h ≠ 0x0FFFFFFF) : Followed fat h h
  | next (h e c : Nat) (h2 : 2 < h) (hm : h ≠ 0x0FFFFFFF) (he : fat.table[h]? = some e)
      (hc : Followed fat e c) : Followed fat h c

/-- The effect of a completed run of the loop of `walk` on `maxClusterF`, in
terms of the entries it has added to the log. -/
def WalkMax (fat : FileAllocationTable) (st st' : WalkState) : Prop :=
  ∃ added : List (Nat × ShortDirEntry),
    st'.out = st.out ++ added ∧ st.maxClusterF ≤ st'.maxClusterF ∧
    (∀ p ∈ added, ∀ c, Followed fat p.2.startCluster c → c ≤ st'.maxClusterF) ∧
    (st'.maxClusterF = st.maxClusterF ∨
      ∃ p ∈ added, Followed fat p.2.startCluster st'.maxClusterF)

/-! ## Well-formed chains -/

/-- `ChainFrom fat h cs mark`: following the table from the head cluster `h`
visits exactly the clusters `cs`, in order, and the entry of the last of them
is `mark`. -/
def ChainFrom (fat : FileAllocationTable) : Nat → List Nat → Nat → Prop
  | _, [], _ => False
  | h, [c], mark => c = h ∧ fat.table[c]? = some mark
  | h, c :: d :: rest, mark =>
    c = h ∧ fat.table[c]? = some d ∧ ChainFrom fat d (d :: rest) mark

/-- A well-formed chain: every link is a cluster number in `[2, tableSize)`, no
cluster is repeated, and the last entry is an end-of-chain marker. -/
def WellFormedChain (fat : FileAllocationTable) (h : Nat) (cs : List Nat) (mark : Nat) : Prop :=
  fat.table.length = fat.tableSize ∧ ChainFrom fat h cs mark ∧
  (∀ c ∈ cs, 2 ≤ c ∧ c < fat.tableSize) ∧ cs.Nodup ∧
  0x0FFFFFF8 ≤ mark ∧ mark ≤ 0x0FFFFFFF

/-! ## Directories on a volume with one sector per cluster -/

/-- The iterator position after `k` advances along the chain `cs` that ends
in the entry `mark`: the `k`-th cluster of the chain, or `mark` past its end. -/
def chainPos (cs : List Nat) (mark : Nat) (k : Nat) : Nat := (cs[k]?).getD mark

/-- The directory entry made of the 32 bytes at offset `32 * j` of the
concatenated contents of the clusters of `cs`, the clusters being located by
`Cluster::getSector`. -/
def chainRecord (fat : FileAllocationTable) (cs : List Nat) (j : Nat) : ShortDirEntry :=
  ShortDirEntry.decode (chainByte fat cs) (32 * j)

/-- In terms of the values that the program holds: the struct `fs` has
`sectorsPerCluster = 1` and its fields in the range of their C++ types, `dir`
is a directory, and the chain from the start cluster that the program computes
for `dir`, the clusters `cs` followed by the entry `mark`, is well-formed: the
table has `tableSize` entries, every cluster of the chain is a cluster number
in `[2, tableSize)` below the marker range, no cluster is repeated and `mark`
is an end-of-chain marker. -/
structure SectorDirectory (fat : FileAllocationTable) (dir : ShortDirEntry) (cs : List Nat)
    (mark : Nat) : Prop where
  inRange : fat.fs.InRange
  oneSector : fat.fs.sectorsPerCluster = 1
  isDir : File.isDir dir = true
  wellFormed : WellFormedChain fat dir.startCluster cs mark
  belowMarkers : ∀ c ∈ cs, c < 0x0FFFFFF8

/-! ## Directories in terms of the stored volume -/

/-- Byte `i` of the cluster `c` of the volume: the cluster starts at the sector
that the sector formula gives on the stored geometry. -/
def DiskGeometry.clusterByte (d : DiskGeometry) (disk : Nat → Nat) (c i : Nat) : Nat :=
  disk (d.sector c * d.bytesPerSector + i)

/-- Byte `j` of the concatenation of the contents of the clusters of `chain` on
the volume (each `sectorsPerCluster * bytesPerSector` long); `0` past the end. -/
def DiskGeometry.chainByte (d : DiskGeometry) (disk : Nat → Nat) (chain : List Nat)
    (j : Nat) : Nat :=
  match chain[j / (d.sectorsPerCluster * d.bytesPerSector)]? with
  | some c => d.clusterByte disk c (j % (d.sectorsPerCluster * d.bytesPerSector))
  | none => 0

/-- The directory record made of the 32 bytes at offset `32 * j` of the
concatenated contents of the clusters of `cs` on the volume. -/
def DiskGeometry.chainRecord (d : DiskGeometry) (disk : Nat → Nat) (cs : List Nat)
    (j : Nat) : ShortDirEntry :=
  ShortDirEntry.decode (d.chainByte disk cs) (32 * j)

/-- A directory on a volume with one sector per cluster, in terms of what the
volume stores.  The program holds the geometry `d` of the volume; the stored
`bytesPerSector`, `reservedSectors`, `numFATs` and legacy `sectorsPerFAT` are
below the sign bit of the C++ field that receives them; the record `dir` is a
directory and stores a start cluster whose low half is below `0x8000`; the chain
from the stored start cluster, the clusters `cs` followed by the entry `mark`,
is well-formed (the table has `tableSize` entries, every cluster of the chain
is a cluster number in `[2, tableSize)` below the marker range, no cluster is
repeated, `mark` is an end-of-chain marker); and the sector of every cluster of
the chain is below `2^32`. -/
structure StoredDirectory (d : DiskGeometry) (fat : FileAllocationTable) (dir : ShortDirEntry)
    (cs : List Nat) (mark : Nat) : Prop where
  loaded : fat.fs = d.load
  bytesPerSector_lt : d.bytesPerSector < 32768
  oneSector : d.sectorsPerCluster = 1
  tableArea : d.TableAreaClear
  isDir : File.isDir dir = true
  lowClear : dir.LowClear
  wellFormed : WellFormedChain fat dir.storedCluster cs mark
  belowMarkers : ∀ c ∈ cs, c < 0x0FFFFFF8
  sectorFits : ∀ c ∈ cs, d.sector c < 4294967296

/-- The state of a directory iterator that has the sector of record `j`
loaded: the cursor is `j`, the buffer holds the sector number `j / fps` of the
chain contents (`fps` records per sector), and the counters and the read log
account for the sectors `0 .. j / fps`. -/
def IterAt (fat : FileAllocationTable) (cs : List Nat) (fps : Nat) (it : DirEntryIterator)
    (j : Nat) : Prop :=
  it.fileCursor = (j : Int) ∧
  it.bytesPerSector = ((32 * fps : Nat) : Int) ∧
  it.filesPerSector = (fps : Int) ∧
  it.currentMaxFileNum = (((j / fps + 1) * fps : Nat) : Int) ∧
  it.nextFileOffset = (((j / fps + 1) * (32 * fps) : Nat) : Int) ∧
  (∀ i, i < 32 * fps → it.entries i = chainByte fat cs (j / fps * (32 * fps) + i)) ∧
  it.reads = (cs.take (j / fps + 1)).map (Cluster.startSector fat.fs)

/-! # Theorems -/

/-! ## Cluster addressing: theorems -/

theorem toU32_eq_emod (x : Int) : (toU32 x : Int) = x % 4294967296 := by
  unfold toU32
  exact Int.toNat_of_nonneg (Int.emod_nonneg _ (by norm_num))

theorem toI32_emod (x : Int) : toI32 x % 4294967296 = x % 4294967296 := by
  unfold toI32
  omega

theorem sectorsPerFAT_eq (g : Fat32Extend) :
    sectorsPerFAT g = (if g.sectorsPerFileAllocationTable ≠ 0 then g.sectorsPerFileAllocationTable
        else g.sectorsPerFileAllocationTable2) := by
  unfold sectorsPerFAT
  by_cases h : g.sectorsPerFileAllocationTable = 0 <;> simp [h]

theorem startSector_eq_emod (g : Fat32Extend) (c : Nat) :
    (Cluster.startSector g c : Int) = sectorFormula g c % 4294967296 := by
  simp only [Cluster.startSector, sectorFormula, toU32_eq_emod, ← sectorsPerFAT_eq]
  have h1 := toI32_emod (g.reservedSectors + g.hiddenSectors)
  have h2 := toI32_emod (sectorsPerFAT g * g.allocationTables)
  have h3 := toI32_emod (toI32 (g.reservedSectors + g.hiddenSectors)
      + toI32 (sectorsPerFAT g * g.allocationTables))
  generalize toI32 (toI32 (g.reservedSectors + g.hiddenSectors)
      + toI32 (sectorsPerFAT g * g.allocationTables)) = b at h3 ⊢
  generalize toI32 (g.reservedSectors + g.hiddenSectors) = b1 at h1 h3
  generalize toI32 (sectorsPerFAT g * g.allocationTables) = b2 at h2 h3
  generalize sectorsPerFAT g * g.allocationTables = p at h2 ⊢
  have e1 : (((c : Int) - 2) % 4294967296 * (g.sectorsPerCluster % 4294967296)) % 4294967296
      = (((c : Int) - 2) * g.sectorsPerCluster) % 4294967296 := by
    rw [← Int.mul_emod]
  rw [e1]
  generalize ((c : Int) - 2) * g.sectorsPerCluster = q
  omega

/-! ## The concrete images are well-typed -/

set_option maxRecDepth 100000 in
/-- The geometries of the concrete images have every field in the range of its
C++ type, their tables have `tableSize` entries of 32 bits, and `tableSize` is
the value the constructor computes from the geometry. -/
theorem concrete_images_well_typed :
    (minimalGeometry.InRange ∧ twoSectorGeometry.InRange ∧ largeGeometry.InRange ∧
      zeroClusterGeometry.InRange) ∧
    (minimalImage.WellSized ∧ spanImage.WellSized ∧ wideImage.WellSized ∧
      markerImage.WellSized ∧ highBitsTable.WellSized) ∧
    (minimalImage.tableSize = tableSizeOf minimalImage.fs ∧
      spanImage.tableSize = tableSizeOf spanImage.fs ∧
      wideImage.tableSize = tableSizeOf wideImage.fs ∧
      markerImage.tableSize = tableSizeOf markerImage.fs ∧
      highBitsTable.tableSize = tableSizeOf highBitsTable.fs) := by
  refine ⟨by decide, ⟨?_, ?_, ?_, ?_, ?_⟩, by decide⟩ <;>
    exact ⟨by decide, by decide⟩

theorem toI16_of_nat_lt (n : Nat) (h : n < 32768) : toI16 (n : Int) = (n : Int) := by
  unfold toI16
  omega

theorem toI8_of_nat_lt (n : Nat) (h : n < 128) : toI8 (n : Int) = (n : Int) := by
  unfold toI8
  omega

/-- On a geometry whose small fields are below the sign bit, the expression of
`Cluster::Cluster` on the struct the program holds and the formula on the
stored geometry agree modulo `2^32`. -/
theorem sectorFormula_load (d : DiskGeometry) (c : Nat) (h2 : 2 ≤ c)
    (hspc : d.sectorsPerCluster < 128) (ht : d.TableAreaClear) :
    sectorFormula d.load c % 4294967296 = ((d.sector c : Nat) : Int) % 4294967296 := by
  obtain ⟨hres, hnf, hspf⟩ := ht
  have hk : ∀ x : Int, ∃ k : Int, toI32 x = x - 4294967296 * k := by
    intro x
    refine ⟨(x + 2147483648) / 4294967296, ?_⟩
    unfold toI32
    omega
  obtain ⟨kh, hkh⟩ := hk (d.hiddenSectors : Int)
  obtain ⟨ks, hks⟩ := hk (d.sectorsPerFileAllocationTable2 : Int)
  have hcast : ((c - 2 : Nat) : Int) = (c : Int) - 2 := by omega
  unfold sectorFormula DiskGeometry.load DiskGeometry.sector
  simp only
  rw [toI16_of_nat_lt _ hres, toI8_of_nat_lt _ hnf, toI16_of_nat_lt _ hspf, toI8_of_nat_lt _ hspc,
    hkh, hks]
  by_cases h0 : d.sectorsPerFileAllocationTable = 0
  · have h0i : ¬ ((d.sectorsPerFileAllocationTable : Int) ≠ 0) := by
      rw [h0]
      simp
    rw [if_neg h0i, if_neg (by simpa using h0)]
    push_cast
    rw [hcast]
    have e : (d.reservedSectors : Int) + ((d.hiddenSectors : Int) - 4294967296 * kh)
        + ((d.sectorsPerFileAllocationTable2 : Int) - 4294967296 * ks) * (d.allocationTables : Int)
        + ((c : Int) - 2) * (d.sectorsPerCluster : Int)
        = (d.reservedSectors : Int) + (d.hiddenSectors : Int)
          + (d.sectorsPerFileAllocationTable2 : Int) * (d.allocationTables : Int)
          + ((c : Int) - 2) * (d.sectorsPerCluster : Int)
          + 4294967296 * (- kh - ks * (d.allocationTables : Int)) := by ring
    rw [e, Int.add_mul_emod_self_left]
  · have h0i : (d.sectorsPerFileAllocationTable : Int) ≠ 0 := by
      exact_mod_cast h0
    rw [if_pos h0i, if_pos h0]
    push_cast
    rw [hcast]
    have e : (d.reservedSectors : Int) + ((d.hiddenSectors : Int) - 4294967296 * kh)
        + (d.sectorsPerFileAllocationTable : Int) * (d.allocationTables : Int)
        + ((c : Int) - 2) * (d.sectorsPerCluster : Int)
        = (d.reservedSectors : Int) + (d.hiddenSectors : Int)
          + (d.sectorsPerFileAllocationTable : Int) * (d.allocationTables : Int)
          + ((c : Int) - 2) * (d.sectorsPerCluster : Int)
          + 4294967296 * (- kh) := by ring
    rw [e, Int.add_mul_emod_self_left]

/-- The start sector computed by `Cluster::Cluster` from the struct the program
holds is the formula on the stored geometry modulo `2^32`, when the small
fields are below the sign bit. -/
theorem startSector_load (d : DiskGeometry) (c : Nat) (h2 : 2 ≤ c)
    (hspc : d.sectorsPerCluster < 128) (ht : d.TableAreaClear) :
    Cluster.startSector d.load c = d.sector c % 4294967296 := by
  have h := startSector_eq_emod d.load c
  rw [sectorFormula_load d c h2 hspc ht] at h
  exact_mod_cast h

theorem startSector_load_of_fits (d : DiskGeometry) (c : Nat) (h2 : 2 ≤ c)
    (hspc : d.sectorsPerCluster < 128) (ht : d.TableAreaClear)
    (hfit : d.sector c < 4294967296) :
    Cluster.startSector d.load c = d.sector c := by
  rw [startSector_load d c h2 hspc ht, Nat.mod_eq_of_lt hfit]

theorem DiskGeometry.sector_succ (d : DiskGeometry) (c : Nat) (h2 : 2 ≤ c) :
    d.sector (c + 1) = d.sector c + d.sectorsPerCluster := by
  unfold DiskGeometry.sector
  have e : c + 1 - 2 = (c - 2) + 1 := by omega
  rw [e, Nat.add_mul, Nat.one_mul]
  omega

theorem DiskGeometry.sector_mono (d : DiskGeometry) (c e : Nat) (hce : c ≤ e) :
    d.sector c ≤ d.sector e := by
  unfold DiskGeometry.sector
  have h : (c - 2) * d.sectorsPerCluster ≤ (e - 2) * d.sectorsPerCluster :=
    Nat.mul_le_mul_right _ (by omega)
  omega

set_option maxRecDepth 100000 in
/-- The concrete stored geometries are the ones the program holds as the
concrete structs. -/
theorem concrete_disks_load :
    minimalDisk.load = minimalGeometry ∧ largeDisk.load = largeGeometry ∧
    zeroClusterDisk.load = zeroClusterGeometry := by
  decide

set_option maxRecDepth 100000 in
/-- With 128 sectors per cluster (the stored byte `0x80`) the program holds
`sectorsPerCluster = -128`: cluster 3 of a volume whose cluster 2 starts at
sector 33 is given the start sector `33 - 128` modulo `2^32`, not `33 + 128`. -/
theorem startSector_sign_extended :
    signedDisk.load.sectorsPerCluster = -128 ∧
    [2, 3, 4].map (Cluster.startSector signedDisk.load) = [33, 4294967201, 4294967073] ∧
    [2, 3, 4].map signedDisk.sector = [33, 161, 289] := by
  decide

/-! ## C7: the sector formula -/

set_option maxRecDepth 100000 in
/-- C7, as stated, fails: on the volume of `largeDisk`, whose fields the program
holds unchanged (`largeGeometry`), cluster 67106818 (a cluster number below the
table size 134217728) gets start sector 32, whereas the formula
`reservedSectors + hiddenSectors + sectorsPerFAT * numFATs + (c - 2) * sectorsPerCluster`
gives 4294967328, a value that does not fit the `uint32_t` member. -/
theorem startSector_formula_counterexample :
    (largeDisk.load = largeGeometry ∧ largeGeometry.InRange) ∧
    (2 ≤ 67106818 ∧ 67106818 < tableSizeOf largeGeometry) ∧
    Cluster.startSector largeGeometry 67106818 = 32 ∧
    largeDisk.sector 67106818 = 4294967328 := by
  decide

/-- C7 (amended): for every stored geometry whose `sectorsPerCluster`,
`numFATs`, `reservedSectors` and legacy `sectorsPerFAT` are below the sign bit
of the signed C++ field that receives them (at most 127, 127, 32767 and 32767),
and every cluster number `c ≥ 2`, the start sector computed by the constructor
of `Cluster` and returned by `getSector` equals
`reservedSectors + hiddenSectors + sectorsPerFAT * numFATs + (c - 2) * sectorsPerCluster`
on the stored numbers, reduced modulo `2^32`, with `sectorsPerFAT` the 16-bit
field when non-zero and the 32-bit field otherwise; it equals the formula
itself whenever the value of the formula is below `2^32`. -/
theorem getSector_eq_formula_mod (d : DiskGeometry) (fat : FileAllocationTable) (c : Nat)
    (hfs : fat.fs = d.load) (hc : 2 ≤ c) (hspc : d.sectorsPerCluster < 128)
    (ht : d.TableAreaClear) :
    Cluster.getSector fat c = d.sector c % 4294967296 ∧
    (d.sector c < 4294967296 → Cluster.getSector fat c = d.sector c) := by
  unfold Cluster.getSector
  rw [hfs]
  exact ⟨startSector_load d c hc hspc ht, startSector_load_of_fits d c hc hspc ht⟩

set_option maxRecDepth 100000 in
/-- Witness of `getSector_eq_formula_mod` on the minimal image at cluster 4. -/
theorem getSector_eq_formula_mod_witness :
    (minimalImage.fs = minimalDisk.load ∧ 2 ≤ 4 ∧ minimalDisk.sectorsPerCluster < 128 ∧
      minimalDisk.TableAreaClear) ∧
    Cluster.getSector minimalImage 4 = 35 ∧ minimalDisk.sector 4 = 35 :=
  ⟨⟨by decide, by decide, by decide, by decide⟩,
    ((getSector_eq_formula_mod minimalDisk minimalImage 4 (by decide) (by decide) (by decide)
      (by decide)).2 (by decide)).trans (by decide),
    by decide⟩

/-! ## C8: consecutive clusters -/

set_option maxRecDepth 100000 in
/-- C8, as stated, fails in two ways.  With `sectorsPerCluster = 0` clusters 2
and 3 share a start sector; and on the volume of `largeDisk` the start sector
wraps around between the clusters 67106817 and 67106818, both below the table
size, so that the mapping decreases there.  The program holds the fields of
both volumes unchanged. -/
theorem startSector_step_counterexample :
    (zeroClusterDisk.load = zeroClusterGeometry ∧ largeDisk.load = largeGeometry) ∧
    (zeroClusterGeometry.InRange ∧ (2 ≤ 2 ∧ 2 < tableSizeOf zeroClusterGeometry) ∧
      ¬ (Cluster.startSector zeroClusterGeometry 2 < Cluster.startSector zeroClusterGeometry 3)) ∧
    (largeGeometry.InRange ∧ (2 ≤ 67106817 ∧ 67106817 < tableSizeOf largeGeometry) ∧
      Cluster.startSector largeGeometry 67106817 = 4294967264 ∧
      Cluster.startSector largeGeometry 67106818 = 32 ∧
      ¬ (Cluster.startSector largeGeometry 67106817
          < Cluster.startSector largeGeometry 67106818)) := by
  decide

/-- C8 (amended): for every stored geometry with `1 ≤ sectorsPerCluster ≤ 127`
whose `numFATs`, `reservedSectors` and legacy `sectorsPerFAT` are below the
sign bit of the signed C++ field that receives them, and every cluster
`c ≥ 2` (in particular every `c` in `[2, tableSize)`) such that the sector
formula on the stored numbers is below
`2^32` at `c + 1`, consecutive clusters are exactly `sectorsPerCluster` sectors
apart and the mapping increases: `sector(c+1) - sector(c) = sectorsPerCluster`
and `sector(c) < sector(c+1)`; moreover `sector(c) < sector(e)` for every later
cluster `e` whose formula value is below `2^32`. -/
theorem startSector_step (d : DiskGeometry) (c : Nat) (h2 : 2 ≤ c)
    (hspc1 : 1 ≤ d.sectorsPerCluster)
    (hspc : d.sectorsPerCluster < 128) (ht : d.TableAreaClear)
    (hhi : d.sector (c + 1) < 4294967296) :
    Cluster.startSector d.load (c + 1) = Cluster.startSector d.load c + d.sectorsPerCluster ∧
    Cluster.startSector d.load c < Cluster.startSector d.load (c + 1) ∧
    ∀ e, c < e → d.sector e < 4294967296 →
      Cluster.startSector d.load c < Cluster.startSector d.load e := by
  have hs := DiskGeometry.sector_succ d c h2
  have e1 := startSector_load_of_fits d c h2 hspc ht (by omega)
  have e2 := startSector_load_of_fits d (c + 1) (by omega) hspc ht hhi
  refine ⟨by omega, by omega, ?_⟩
  intro e hce he
  have hm := DiskGeometry.sector_mono d (c + 1) e hce
  have e3 := startSector_load_of_fits d e (by omega) hspc ht he
  omega

set_option maxRecDepth 100000 in
/-- Witness of `startSector_step` on the minimal geometry at cluster 3, with
cluster 5 as the later cluster. -/
theorem startSector_step_witness :
    (2 ≤ 3 ∧ 1 ≤ minimalDisk.sectorsPerCluster ∧
      minimalDisk.sectorsPerCluster < 128 ∧ minimalDisk.TableAreaClear ∧
      minimalDisk.sector 4 < 4294967296 ∧ minimalDisk.sector 5 < 4294967296) ∧
    Cluster.startSector minimalDisk.load 4
      = Cluster.startSector minimalDisk.load 3 + minimalDisk.sectorsPerCluster ∧
    Cluster.startSector minimalDisk.load 3 < Cluster.startSector minimalDisk.load 4 ∧
    Cluster.startSector minimalDisk.load 3 < Cluster.startSector minimalDisk.load 5 := by
  have h := startSector_step minimalDisk 3 (by decide) (by decide) (by decide) (by decide)
    (by decide)
  exact ⟨⟨by decide, by decide, by decide, by decide, by decide, by decide⟩,
    h.1, h.2.1, h.2.2 5 (by decide) (by decide)⟩

/-! ## C9: the chain iterator -/

theorem tableAt_of_getElem? (fat : FileAllocationTable) (i e : Nat)
    (h : fat.table[i]? = some e) : fat.tableAt i = Outcome.ok e := by
  simp [FileAllocationTable.tableAt, h, pure]

theorem tableAt_of_length_le (fat : FileAllocationTable) (i : Nat)
    (h : fat.table.length ≤ i) : fat.tableAt i = Outcome.fault (Fault.tableIndex i) := by
  simp [FileAllocationTable.tableAt, List.getElem?_eq_none h]

set_option maxRecDepth 100000 in
/-- C9, as stated, fails.  The advance does not mask: from position 2 of
`highBitsTable`, whose entry is `0x10000005`, it moves to `0x10000005`, not to
5.  And the end-of-chain marker `0x0FFFFFF8` is not terminal: advancing from it
reads `table[0x0FFFFFF8]`, which lies outside the table of the minimal image. -/
theorem iterator_next_counterexample :
    (iterator.next highBitsTable 2 = Outcome.ok 0x10000005 ∧ 0x10000005 % 268435456 = 5) ∧
    (iterator.lookup 0x0FFFFFF8 = some 0x0FFFFFF8 ∧
      iterator.next minimalImage 0x0FFFFFF8 = Outcome.fault (Fault.tableIndex 0x0FFFFFF8)) := by
  decide

/-- C9 (amended): for every allocation table, the advance of the chain iterator
from a position below `0x0FFFFFF0` that lies inside the table moves to the raw,
unmasked entry `table[current]`; the position `0x0FFFFFFF` is terminal:
advancing from it performs no table lookup (it succeeds on every table, even an
empty one) and leaves the position unchanged. -/
theorem iterator_next_raw_and_terminal (fat : FileAllocationTable) :
    (∀ current e, current < 0x0FFFFFF0 → fat.table[current]? = some e →
      iterator.next fat current = Outcome.ok e ∧ iterator.lookup current = some current) ∧
    (iterator.next fat 0x0FFFFFFF = Outcome.ok 0x0FFFFFFF ∧
      iterator.lookup 0x0FFFFFFF = none) := by
  refine ⟨?_, ?_, ?_⟩
  · intro current e hlt he
    have hne : current ≠ 0x0fffffff := by omega
    refine ⟨?_, ?_⟩
    · unfold iterator.next
      rw [if_pos hne]
      exact tableAt_of_getElem? fat current e he
    · unfold iterator.lookup
      rw [if_pos hne]
  · simp [iterator.next, pure]
  · simp [iterator.lookup]

set_option maxRecDepth 100000 in
/-- Witness of `iterator_next_raw_and_terminal`: on `spanImage` the advance
from cluster 4 moves to cluster 5. -/
theorem iterator_next_raw_and_terminal_witness :
    iterator.next spanImage 4 = Outcome.ok 5 ∧ iterator.lookup 4 = some 4 :=
  (iterator_next_raw_and_terminal spanImage).1 4 5 (by decide) (by decide)

/-! ## C6: the table scan -/

theorem maxClusterLoop_spec (fat : FileAllocationTable) :
    ∀ (n i m : Nat), (∀ j, i ≤ j → j < i + n → j < fat.table.length) →
      ∃ r, fat.maxClusterLoop n i m = Outcome.ok r ∧ m ≤ r ∧
        (∀ j e, i ≤ j → j < i + n → fat.table[j]? = some e → e ≤ 0x0FFFFFEF → e ≤ r) ∧
        (r = m ∨ ∃ j, i ≤ j ∧ j < i + n ∧ fat.table[j]? = some r ∧ r ≤ 0x0FFFFFEF) := by
  intro n
  induction n with
  | zero =>
    intro i m _
    refine ⟨m, rfl, le_refl _, ?_, Or.inl rfl⟩
    intro j e h1 h2
    omega
  | succ n ih =>
    intro i m hin
    have hi : i < fat.table.length := hin i (le_refl _) (by omega)
    have hget : fat.table[i]? = some (fat.table[i]) := List.getElem?_eq_getElem hi
    generalize fat.table[i] = e at hget
    obtain ⟨r, hr, hmr, hall, hex⟩ :=
      ih (i + 1) (if e ≤ 0x0FFFFFEF then max m e else m)
        (fun j h1 h2 => hin j (by omega) (by omega))
    refine ⟨r, ?_, ?_, ?_, ?_⟩
    · show Outcome.bind (fat.tableAt i) _ = _
      rw [tableAt_of_getElem? fat i e hget]
      exact hr
    · by_cases he : e ≤ 0x0FFFFFEF
      · rw [if_pos he] at hmr
        exact le_trans (le_max_left m e) hmr
      · rw [if_neg he] at hmr
        exact hmr
    · intro j e' h1 h2 hj he'
      by_cases hji : j = i
      · subst hji
        rw [hget] at hj
        cases hj
        rw [if_pos he'] at hmr
        exact le_trans (le_max_right m e) hmr
      · exact hall j e' (by omega) (by omega) hj he'
    · rcases hex with h | ⟨j, h1, h2, h3, h4⟩
      · by_cases he : e ≤ 0x0FFFFFEF
        · rw [if_pos he] at h
          rcases le_total m e with hme | hme
          · rw [max_eq_right hme] at h
            right
            exact ⟨i, le_refl _, by omega, by rw [h]; exact hget, by rw [h]; exact he⟩
          · rw [max_eq_left hme] at h
            exact Or.inl h
        · rw [if_neg he] at h
          exact Or.inl h
      · right
        exact ⟨j, by omega, by omega, h3, h4⟩

set_option maxRecDepth 100000 in
/-- C6, as stated, fails: the scan does not mask.  In `highBitsTable` entry 2 is
`0x10000005`, whose low 28 bits reference cluster 5; the reading of the
specification gives 5, `maxCluster()` returns 2. -/
theorem maxCluster_counterexample :
    highBitsTable.maxCluster = Outcome.ok 2 ∧ maskedMaxSpec highBitsTable = 5 := by
  decide

/-- C6 (amended): for every allocation table of `tableSize` entries,
`maxCluster()` returns the greatest raw (unmasked) 32-bit entry value at an
index in `[2, tableSize)` that is at most `0x0FFFFFEF`, but never less than 2:
the result `r` satisfies `2 ≤ r`, bounds every such entry value, and is either
2 or one of these entry values. -/
theorem maxCluster_raw_max (fat : FileAllocationTable)
    (hsize : fat.table.length = fat.tableSize) :
    ∃ r, fat.maxCluster = Outcome.ok r ∧ 2 ≤ r ∧
      (∀ i e, 2 ≤ i → i < fat.tableSize → fat.table[i]? = some e → e ≤ 0x0FFFFFEF → e ≤ r) ∧
      (r = 2 ∨ ∃ i, 2 ≤ i ∧ i < fat.tableSize ∧ fat.table[i]? = some r ∧ r ≤ 0x0FFFFFEF) := by
  obtain ⟨r, hr, hmr, hall, hex⟩ :=
    maxClusterLoop_spec fat (fat.tableSize - 2) 2 2 (fun j h1 h2 => by omega)
  refine ⟨r, hr, hmr, ?_, ?_⟩
  · intro i e h1 h2 hi he
    exact hall i e h1 (by omega) hi he
  · rcases hex with h | ⟨j, h1, h2, h3, h4⟩
    · exact Or.inl h
    · exact Or.inr ⟨j, h1, by omega, h3, h4⟩

set_option maxRecDepth 100000 in
/-- Witness of `maxCluster_raw_max` on `spanImage`, whose entry 4 is the cluster
number 5: the scan succeeds with a result of at least 5. -/
theorem maxCluster_raw_max_witness :
    spanImage.table.length = spanImage.tableSize ∧
    5 ≤ spanImage.maxCluster.value?.getD 0 :=
  ⟨by decide, by
    obtain ⟨r, hr, _, hall, _⟩ := maxCluster_raw_max spanImage (by decide)
    rw [hr]
    exact hall 4 5 (by decide) (by decide) (by decide) (by decide)⟩

/-! ## Runs and chains: supporting lemmas -/

theorem Outcome.bind_ok {α β : Type} (a : α) (f : α → Outcome β) :
    Outcome.bind (Outcome.ok a) f = f a := rfl

theorem Outcome.bind_fault {α β : Type} (e : Fault) (f : α → Outcome β) :
    Outcome.bind (Outcome.fault e : Outcome α) f = Outcome.fault e := rfl

theorem walkChain_succ (fat : FileAllocationTable) (fuel s m : Nat) :
    walkChain fat (fuel + 1) s m
      = if s > 2 ∧ s ≠ 0x0FFFFFFF then
          Outcome.bind (fat.tableAt s) (fun e => walkChain fat fuel e (max m s))
        else Outcome.ok m := rfl

theorem rootLoop_succ (fat : FileAllocationTable) (fuel : Nat) (c k : Int) :
    fat.rootLoop (fuel + 1) c k
      = Outcome.bind (fat.tableAtInt c) (fun e =>
          if toI32 e ≤ 0x0FFFFFEF then fat.rootLoop fuel (toI32 e) (toI32 (k + 1))
          else Outcome.ok (toI32 (k + 1))) := rfl

theorem chain_length_le (n : Nat) (cs : List Nat) (hr : ∀ c ∈ cs, 2 ≤ c ∧ c < n)
    (hd : cs.Nodup) : cs.length + 2 ≤ n ∨ cs = [] := by
  by_cases he : cs = []
  · exact Or.inr he
  · left
    have hsub : cs.toFinset ⊆ Finset.Ico 2 n := by
      intro c hc
      rw [List.mem_toFinset] at hc
      rw [Finset.mem_Ico]
      exact hr c hc
    have hcard := Finset.card_le_card hsub
    rw [List.toFinset_card_of_nodup hd, Nat.card_Ico] at hcard
    have hpos : 0 < cs.length := List.length_pos.mpr he
    obtain ⟨c, hc⟩ := List.exists_mem_of_ne_nil cs he
    have := hr c hc
    omega

theorem walkChain_at_terminal (fat : FileAllocationTable) (fuel m : Nat) :
    walkChain fat fuel 0x0FFFFFFF m = Outcome.ok m := by
  cases fuel <;> simp [walkChain, pure]

/-- The chain loop of `walk` on a chain that ends in the marker `0x0FFFFFFF`:
as many units of fuel (table lookups) as the chain has clusters suffice. -/
theorem walkChain_terminates_of_chain (fat : FileAllocationTable) :
    ∀ (cs : List Nat) (h m fuel : Nat), ChainFrom fat h cs 0x0FFFFFFF → cs.length ≤ fuel →
      ∃ r, walkChain fat fuel h m = Outcome.ok r := by
  intro cs
  induction cs with
  | nil =>
    intro h m fuel hch _
    exact absurd hch (by simp [ChainFrom])
  | cons c rest ih =>
    intro h m fuel hch hlen
    cases fuel with
    | zero => simp at hlen
    | succ fuel =>
      by_cases hcond : h > 2 ∧ h ≠ 0x0FFFFFFF
      · cases rest with
        | nil =>
          obtain ⟨hc, hget⟩ := hch
          subst hc
          refine ⟨max m c, ?_⟩
          rw [walkChain_succ, if_pos hcond, tableAt_of_getElem? fat c _ hget, Outcome.bind_ok]
          exact walkChain_at_terminal fat fuel _
        | cons d rest =>
          obtain ⟨hc, hget, hrest⟩ := hch
          subst hc
          obtain ⟨r, hr⟩ := ih d (max m c) fuel hrest (by simpa using hlen)
          refine ⟨r, ?_⟩
          rw [walkChain_succ, if_pos hcond, tableAt_of_getElem? fat c _ hget, Outcome.bind_ok]
          exact hr
      · refine ⟨m, ?_⟩
        rw [walkChain_succ, if_neg hcond]

/-- Termination of the chain loop of `walk` within `tableSize` table lookups,
for a well-formed chain whose end-of-chain marker is `0x0FFFFFFF`. -/
theorem walkChain_terminates (fat : FileAllocationTable) (h : Nat) (cs : List Nat) (m : Nat)
    (hwf : WellFormedChain fat h cs 0x0FFFFFFF) :
    ∃ r, walkChain fat fat.tableSize h m = Outcome.ok r := by
  obtain ⟨_, hch, hr, hd, _, _⟩ := hwf
  apply walkChain_terminates_of_chain fat cs h m fat.tableSize hch
  rcases chain_length_le fat.tableSize cs hr hd with hle | he
  · omega
  · subst he
    exact absurd hch (by simp [ChainFrom])

theorem toI32_of_lt (e : Nat) (h : e < 2147483648) : toI32 (e : Int) = (e : Int) := by
  unfold toI32
  omega

theorem tableAtInt_of_getElem? (fat : FileAllocationTable) (i e : Nat)
    (h : fat.table[i]? = some e) : fat.tableAtInt (i : Int) = Outcome.ok e := by
  unfold FileAllocationTable.tableAtInt
  rw [if_neg (by omega)]
  simpa using tableAt_of_getElem? fat i e h

/-- The loop of `root()` on a chain that ends in any end-of-chain marker: as
many units of fuel (table lookups) as the chain has clusters suffice. -/
theorem rootLoop_terminates_of_chain (fat : FileAllocationTable) (mark : Nat)
    (hmark : 0x0FFFFFF8 ≤ mark ∧ mark ≤ 0x0FFFFFFF) :
    ∀ (cs : List Nat) (h : Nat) (k : Int) (fuel : Nat), ChainFrom fat h cs mark →
      (∀ c ∈ cs, c < 2147483648) → cs.length ≤ fuel →
      ∃ n, fat.rootLoop fuel (h : Int) k = Outcome.ok n := by
  intro cs
  induction cs with
  | nil =>
    intro h k fuel hch _ _
    exact absurd hch (by simp [ChainFrom])
  | cons c rest ih =>
    intro h k fuel hch hsmall hlen
    cases fuel with
    | zero => simp at hlen
    | succ fuel =>
      cases rest with
      | nil =>
        obtain ⟨hc, hget⟩ := hch
        subst hc
        refine ⟨toI32 (k + 1), ?_⟩
        have h1 : toI32 (mark : Int) = mark := toI32_of_lt mark (by omega)
        have h2 : ¬ ((mark : Int) ≤ 0x0FFFFFEF) := by omega
        rw [rootLoop_succ, tableAtInt_of_getElem? fat c _ hget, Outcome.bind_ok, h1, if_neg h2]
      | cons d rest =>
        obtain ⟨hc, hget, hrest⟩ := hch
        subst hc
        have hd : d < 2147483648 := hsmall d (by simp)
        obtain ⟨n, hn⟩ := ih d (toI32 (k + 1)) fuel hrest
          (fun x hx => hsmall x (List.mem_cons_of_mem _ hx)) (by simpa using hlen)
        rw [rootLoop_succ, tableAtInt_of_getElem? fat c _ hget, Outcome.bind_ok,
          toI32_of_lt d hd]
        by_cases hcont : (d : Int) ≤ 0x0FFFFFEF
        · rw [if_pos hcont]
          exact ⟨n, hn⟩
        · rw [if_neg hcont]
          exact ⟨_, rfl⟩

/-- Termination of the loop of `root()` within `tableSize` table lookups, for a
well-formed chain with any end-of-chain marker (table of at most `2^31`
entries). -/
theorem rootLoop_terminates (fat : FileAllocationTable) (h : Nat) (cs : List Nat) (mark : Nat)
    (k : Int) (hwf : WellFormedChain fat h cs mark) (hsize : fat.tableSize ≤ 2147483648) :
    ∃ n, fat.rootLoop fat.tableSize (h : Int) k = Outcome.ok n := by
  obtain ⟨_, hch, hr, hd, hm1, hm2⟩ := hwf
  apply rootLoop_terminates_of_chain fat mark ⟨hm1, hm2⟩ cs h k fat.tableSize hch
  · intro c hc
    have := hr c hc
    omega
  · rcases chain_length_le fat.tableSize cs hr hd with hle | he
    · omega
    · subst he
      exact absurd hch (by simp [ChainFrom])

/-! ## C10: following a chain -/

set_option maxRecDepth 100000 in
/-- C10 at its failing input: in `markerImage` the chain of head cluster 3 is
well-formed (its only entry is the end-of-chain marker `0x0FFFFFF8`), and the
loop of `root()` stops after one lookup; the chain loop of `walk` does not stop
at the marker but goes on to read `table[0x0FFFFFF8]`, outside the table of 128
entries, whatever the fuel. -/
theorem walkChain_marker_out_of_range :
    (markerImage.table.length = 128 ∧ markerImage.table[3]? = some 0x0FFFFFF8) ∧
    markerImage.rootLoop 1 3 1 = Outcome.ok 2 ∧
    ∀ fuel, walkChain markerImage (fuel + 2) 3 0
      = Outcome.fault (Fault.tableIndex 0x0FFFFFF8) := by
  refine ⟨by decide, by decide, ?_⟩
  intro fuel
  have h3 : markerImage.tableAt 3 = Outcome.ok 0x0FFFFFF8 := by decide
  have h8 : markerImage.tableAt 0x0FFFFFF8 = Outcome.fault (Fault.tableIndex 0x0FFFFFF8) := by
    decide
  have c3 : 3 > 2 ∧ 3 ≠ 0x0FFFFFFF := by omega
  have c8 : 0x0FFFFFF8 > 2 ∧ 0x0FFFFFF8 ≠ 0x0FFFFFFF := by omega
  rw [walkChain_succ, if_pos c3, h3, Outcome.bind_ok, walkChain_succ, if_pos c8, h8,
    Outcome.bind_fault]

/-! ## C1: reads across clusters -/

set_option maxRecDepth 100000 in
/-- C1 at its failing input: the file of `spanImage` occupies the well-formed
chain 4 -> 5 (1024 bytes, one sector per cluster).  `read(buffer, 1, 600)` into
a zeroed buffer, with the bytes of `temp` initially 170, should deliver the
bytes 1..600 of the concatenated clusters (109 at buffer offset 510, 110 at
511, 198 at 599).  Instead offset 510 receives a byte of `temp` that was never
filled, offsets 511..599 are never written, and the data of cluster 5 lands at
offset 1022. -/
theorem File_read_mid_cluster_counterexample :
    (spanImage.tableAt 4 = Outcome.ok 5 ∧ spanImage.tableAt 5 = Outcome.ok 0x0FFFFFFF) ∧
    [0, 509, 510, 511, 599].map (fun i => chainByte spanImage [4, 5] (1 + i))
      = [101, 108, 109, 110, 198] ∧
    (File.read spanImage spanFile (fun _ => 0) (fun _ => 170) 1 600).value?.map
        (fun m => [m 0, m 509, m 510, m 511, m 599, m 1022, m 1110])
      = some [101, 108, 170, 0, 0, 110, 198] := by
  decide

set_option maxRecDepth 100000 in
/-- The defect behind C1 in its second form: with two sectors per cluster a
read of one whole cluster (1024 bytes at offset 0 of the root directory of
`wideImage`) transfers the first sector only; buffer offset 512 keeps its
initial value 0 although the cluster holds 70 there. -/
theorem File_read_whole_cluster_counterexample :
    chainByte wideImage [2] 512 = 70 ∧
    (File.read wideImage (rootEntryOf wideImage) (fun _ => 0) (fun _ => 0) 0 1024).value?.map
        (fun m => [m 0, m 511, m 512])
      = some [70, 0, 0] := by
  decide

/-! ## C2: the directory entry stream -/

set_option maxRecDepth 100000 in
/-- C2 at its failing input: the root directory of `wideImage` (two sectors per
cluster) stores 17 records with non-zero first byte followed by zero bytes.
The stream yields the 16 records of the first sector and then decodes the
buffer from the bytes of `temp` in `File::read`, which were never read from the
image: with `temp` initially zero the stream ends after 16 records and never
yields record 16. -/
theorem File_entries_two_sector_counterexample :
    wideImage.root 1 = Outcome.ok (rootEntryOf wideImage) ∧
    ((List.range 17).all (fun k => (wideRecord k).getD 0 0 != 0) = true ∧
      (List.range 32).map (fun i => wideImage.disk (33 * 512 + 16 * 32 + i)) = wideRecord 16) ∧
    (File.entries wideImage (rootEntryOf wideImage) (fun _ => 0) (fun _ => 0) 40).value?.map
        (List.map (fun e => e.fileName))
      = some ((List.range 16).map (fun k => (recordEntry (wideRecord k)).fileName)) := by
  refine ⟨?_, ?_, ?_⟩
  · decide
  · decide
  · decide!

/-! ## C3 and C4: the usage estimate -/

set_option maxRecDepth 100000 in
/-- C3 at its failing input, the minimal image of the specification (clusters
2, 3 and 4 allocated, one sector per cluster, 512-byte sectors): the walk
counts 2 entries and observes cluster 4, the table scan returns 2, and the
reported "End size" is 17408, the end of cluster 2, whereas the end-sector
boundary of the last allocated cluster 4 is
`(sector(4) + sectorsPerCluster) * bytesPerSector = 18432`. -/
theorem main_minimalImage_endSize :
    main minimalImage (fun _ => 0) (fun _ => 0) 16
      = Outcome.ok { maxCluster := 2, maxClusterF := 4, endSize := 17408, files := 2 } ∧
    ((Cluster.getSector minimalImage 4 : Int) + minimalImage.fs.sectorsPerCluster)
      * minimalImage.fs.bytesPerSector = 18432 := by
  decide

set_option maxRecDepth 100000 in
/-- C4 at its failing input: for every table the reported "End size" is a
function of the scan result alone.  On the table of the minimal image the scan
result is `s = 2`, and for every walker result `w` the reported "End size" is
17408, the value for cluster 2; with `w = 4` the claimed value
`(sector(max(s, w)) + 1) * bytesPerSector` is 18432. -/
theorem mainReport_ignores_walk :
    (∀ (fat : FileAllocationTable) (st : WalkState),
      (mainReport fat st).value?.map (fun r => r.endSize)
        = fat.maxCluster.value?.map (fun s => endSize fat s)) ∧
    (∀ (files : Int) (w : Nat) (out : List (Nat × ShortDirEntry)),
      mainReport minimalImage { files := files, maxClusterF := w, out := out }
        = Outcome.ok { maxCluster := 2, maxClusterF := w, endSize := 17408, files := files }) ∧
    ((Cluster.getSector minimalImage (max 2 4) : Int) + 1) * minimalImage.fs.bytesPerSector
      = 18432 := by
  refine ⟨?_, ?_, by decide⟩
  · intro fat st
    simp only [mainReport, bind, pure]
    cases fat.maxCluster <;> rfl
  intro files w out
  have hs : minimalImage.maxCluster = Outcome.ok 2 := by decide
  have he : endSize minimalImage 2 = 17408 := by decide
  simp only [mainReport, bind, pure, hs, Outcome.bind, he]

/-! ## C5: the entry count -/

set_option maxRecDepth 100000 in
/-- C5 at its failing input: the root directory of `wideImage` holds 17 real
entries (printable first byte, attribute `0x20`, not `.` or `..`), none of them
a directory.  With `temp` initially zero the walk counts 16; with `temp`
initially 65 it follows a start cluster made of `temp` bytes and reads
`table[0x41414141]`. -/
theorem main_wideImage_files :
    (List.range 17).all (fun k =>
        !walkSkips (recordEntry (wideRecord k)) && !walkIsDot (recordEntry (wideRecord k))
          && !File.isDir (recordEntry (wideRecord k))) = true ∧
    main wideImage (fun _ => 0) (fun _ => 0) 40
      = Outcome.ok { maxCluster := 2, maxClusterF := 0, endSize := 17408, files := 16 } ∧
    main wideImage (fun _ => 65) (fun _ => 0) 40
      = Outcome.fault (Fault.tableIndex 0x41414141) := by
  decide

/-! ## The walk: one step -/

theorem walkChain_zero (fat : FileAllocationTable) (s m : Nat) :
    walkChain fat 0 s m
      = if s > 2 ∧ s ≠ 0x0FFFFFFF then Outcome.fault Fault.outOfFuel else Outcome.ok m := rfl

theorem rootLoop_zero (fat : FileAllocationTable) (c k : Int) :
    fat.rootLoop 0 c k = Outcome.fault Fault.outOfFuel := rfl

theorem walkLoop_zero (fat : FileAllocationTable) (stack heap0 : Mem) (root : ShortDirEntry)
    (level : Nat) (it : DirEntryIterator) (st : WalkState) :
    walkLoop fat stack heap0 0 root level it st = Outcome.fault Fault.outOfFuel := rfl

theorem walkLoop_succ (fat : FileAllocationTable) (stack heap0 : Mem) (fuel : Nat)
    (root : ShortDirEntry) (level : Nat) (it : DirEntryIterator) (st : WalkState) :
    walkLoop fat stack heap0 (fuel + 1) root level it st =
      Outcome.bind (DirEntryIterator.neEnd fat root stack it) (fun p =>
        if p.1 = true then
          Outcome.bind (DirEntryIterator.deref fat root stack p.2) (fun q =>
            if walkSkips q.1 = true then
              Outcome.bind (DirEntryIterator.incr fat root stack q.2) (fun it3 =>
                walkLoop fat stack heap0 fuel root level it3 st)
            else
              Outcome.bind (walkChain fat fuel q.1.startCluster st.maxClusterF) (fun maxF =>
                if walkIsDot q.1 = true then
                  Outcome.bind (DirEntryIterator.incr fat root stack q.2) (fun it3 =>
                    walkLoop fat stack heap0 fuel root level it3
                      { files := st.files, maxClusterF := maxF, out := st.out ++ [(level, q.1)] })
                else if File.isDir q.1 = true then
                  Outcome.bind
                    (walkLoop fat stack heap0 fuel q.1 (level + 1) (File.begin fat heap0)
                      { files := toI32 (st.files + 1), maxClusterF := maxF,
                        out := st.out ++ [(level, q.1)] })
                    (fun st3 =>
                      Outcome.bind (DirEntryIterator.incr fat root stack q.2) (fun it3 =>
                        walkLoop fat stack heap0 fuel root level it3 st3))
                else
                  Outcome.bind (DirEntryIterator.incr fat root stack q.2) (fun it3 =>
                    walkLoop fat stack heap0 fuel root level it3
                      { files := toI32 (st.files + 1), maxClusterF := maxF,
                        out := st.out ++ [(level, q.1)] })))
        else Outcome.ok st) := rfl

/-- One iteration of the loop of `walk` on a record that is not skipped: the
chain loop runs first, then the record is classified. -/
theorem walkLoop_visit (fat : FileAllocationTable) (stack heap0 : Mem) (fuel : Nat)
    (root : ShortDirEntry) (level : Nat) (it it1 it2 : DirEntryIterator) (st : WalkState)
    (entry : ShortDirEntry)
    (h1 : DirEntryIterator.neEnd fat root stack it = Outcome.ok (true, it1))
    (h2 : DirEntryIterator.deref fat root stack it1 = Outcome.ok (entry, it2))
    (hs : walkSkips entry = false) :
    walkLoop fat stack heap0 (fuel + 1) root level it st =
      Outcome.bind (walkChain fat fuel entry.startCluster st.maxClusterF) (fun maxF =>
        if walkIsDot entry = true then
          Outcome.bind (DirEntryIterator.incr fat root stack it2) (fun it3 =>
            walkLoop fat stack heap0 fuel root level it3
              { files := st.files, maxClusterF := maxF, out := st.out ++ [(level, entry)] })
        else if File.isDir entry = true then
          Outcome.bind
            (walkLoop fat stack heap0 fuel entry (level + 1) (File.begin fat heap0)
              { files := toI32 (st.files + 1), maxClusterF := maxF,
                out := st.out ++ [(level, entry)] })
            (fun st3 =>
              Outcome.bind (DirEntryIterator.incr fat root stack it2) (fun it3 =>
                walkLoop fat stack heap0 fuel root level it3 st3))
        else
          Outcome.bind (DirEntryIterator.incr fat root stack it2) (fun it3 =>
            walkLoop fat stack heap0 fuel root level it3
              { files := toI32 (st.files + 1), maxClusterF := maxF,
                out := st.out ++ [(level, entry)] })) := by
  rw [walkLoop_succ, h1, Outcome.bind_ok]
  dsimp only
  rw [if_pos rfl, h2, Outcome.bind_ok]
  dsimp only
  rw [hs, if_neg (by decide)]

/-! ## C11: chains with a back-link -/

theorem chainFrom_head_mem (fat : FileAllocationTable) :
    ∀ (cs : List Nat) (h b : Nat), ChainFrom fat h cs b → h ∈ cs := by
  intro cs h b hch
  cases cs with
  | nil => exact absurd hch (by simp [ChainFrom])
  | cons c rest =>
    cases rest with
    | nil =>
      obtain ⟨hc, _⟩ := hch
      simp [hc]
    | cons d rest =>
      obtain ⟨hc, _, _⟩ := hch
      simp [hc]

theorem chainFrom_next_mem (fat : FileAllocationTable) :
    ∀ (cs : List Nat) (h b : Nat), ChainFrom fat h cs b →
      ∀ c ∈ cs, ∃ d, fat.table[c]? = some d ∧ (d ∈ cs ∨ d = b) := by
  intro cs
  induction cs with
  | nil =>
    intro h b hch
    exact absurd hch (by simp [ChainFrom])
  | cons x rest ih =>
    intro h b hch c hc
    cases rest with
    | nil =>
      obtain ⟨_, hget⟩ := hch
      have hcx : c = x := by simpa using hc
      subst hcx
      exact ⟨b, hget, Or.inr rfl⟩
    | cons d rest =>
      obtain ⟨_, hget, hrest⟩ := hch
      rcases List.mem_cons.mp hc with hcx | hcr
      · subst hcx
        exact ⟨d, hget, Or.inl (by simp)⟩
      · obtain ⟨e, he, hmem⟩ := ih d b hrest c hcr
        refine ⟨e, he, ?_⟩
        rcases hmem with hm | hm
        · exact Or.inl (List.mem_cons_of_mem _ hm)
        · exact Or.inr hm

/-- The chain loop of `walk` inside a set of clusters that is closed under the
table and on which the loop condition holds: the loop is still running when
the fuel is spent, whatever the fuel. -/
theorem walkChain_never_stops (fat : FileAllocationTable) (S : Nat → Prop)
    (hS : ∀ c, S c → (2 < c ∧ c ≠ 0x0FFFFFFF) ∧ ∃ d, fat.table[c]? = some d ∧ S d) :
    ∀ (fuel h m : Nat), S h → walkChain fat fuel h m = Outcome.fault Fault.outOfFuel := by
  intro fuel
  induction fuel with
  | zero =>
    intro h m hh
    rw [walkChain_zero, if_pos (hS h hh).1]
  | succ fuel ih =>
    intro h m hh
    obtain ⟨hcond, d, hd, hSd⟩ := hS h hh
    rw [walkChain_succ, if_pos hcond, tableAt_of_getElem? fat h d hd, Outcome.bind_ok]
    exact ih d _ hSd

/-- The loop of `root()` inside a set of clusters that is closed under the
table and whose members are at most `0x0FFFFFEF`: the loop is still running
when the fuel is spent, whatever the fuel. -/
theorem rootLoop_never_stops (fat : FileAllocationTable) (S : Nat → Prop)
    (hS : ∀ c, S c → c ≤ 0x0FFFFFEF ∧ ∃ d, fat.table[c]? = some d ∧ S d) :
    ∀ (fuel h : Nat) (k : Int), S h →
      fat.rootLoop fuel (h : Int) k = Outcome.fault Fault.outOfFuel := by
  intro fuel
  induction fuel with
  | zero =>
    intro h k _
    exact rootLoop_zero fat _ k
  | succ fuel ih =>
    intro h k hh
    obtain ⟨_, d, hd, hSd⟩ := hS h hh
    have hdle : d ≤ 0x0FFFFFEF := (hS d hSd).1
    have hdi : (d : Int) ≤ 0x0FFFFFEF := by omega
    rw [rootLoop_succ, tableAtInt_of_getElem? fat h d hd, Outcome.bind_ok,
      toI32_of_lt d (by omega), if_pos hdi]
    exact ih d _ hSd

/-- The loop of `walk` at a record whose chain loop runs out of fuel for every
fuel: the loop of `walk` runs out of fuel for every fuel as well. -/
theorem walkLoop_never_stops (fat : FileAllocationTable) (stack heap0 : Mem)
    (root : ShortDirEntry) (level : Nat) (it it1 it2 : DirEntryIterator) (st : WalkState)
    (entry : ShortDirEntry)
    (h1 : DirEntryIterator.neEnd fat root stack it = Outcome.ok (true, it1))
    (h2 : DirEntryIterator.deref fat root stack it1 = Outcome.ok (entry, it2))
    (hs : walkSkips entry = false)
    (hc : ∀ fuel m, walkChain fat fuel entry.startCluster m = Outcome.fault Fault.outOfFuel) :
    ∀ fuel, walkLoop fat stack heap0 fuel root level it st = Outcome.fault Fault.outOfFuel := by
  intro fuel
  cases fuel with
  | zero => exact walkLoop_zero fat stack heap0 root level it st
  | succ fuel =>
    rw [walkLoop_visit fat stack heap0 fuel root level it it1 it2 st entry h1 h2 hs, hc,
      Outcome.bind_fault]

theorem main_eq (fat : FileAllocationTable) (stack heap0 : Mem) (fuel : Nat) :
    main fat stack heap0 fuel
      = Outcome.bind (fat.root fuel) (fun root =>
          Outcome.bind (walk fat stack heap0 fuel root) (fun st => mainReport fat st)) := rfl

theorem root_eq (fat : FileAllocationTable) (fuel : Nat) :
    fat.root fuel
      = Outcome.bind (fat.rootLoop fuel fat.fs.rootCluster 1) (fun rootClusterCount =>
          Outcome.ok
            { fileName := [47, 0, 0, 0, 0, 0, 0, 0]
              extendName := [0, 0, 0]
              attr := 0x10
              reserved := 0
              createTimeMs := 0
              createTime := 0
              createDate := 0
              accessDate := 0
              startClusterHigh := toI16 (fat.fs.rootCluster / 65536)
              modifyTime := 0
              modifyDate := 0
              startClusterLow := toI16 (fat.fs.rootCluster % 65536)
              length := toI32 (toI32 (rootClusterCount * fat.fs.bytesPerSector)
                * fat.fs.sectorsPerCluster) }) := rfl

set_option maxRecDepth 100000 in
theorem loopImage_root (fuel : Nat) :
    loopImage.root (fuel + 1) = Outcome.ok (rootEntryOf loopImage) := by
  have ht : loopImage.tableAtInt loopImage.fs.rootCluster = Outcome.ok 0x0FFFFFFF := by decide
  have hm : toI32 ((0x0FFFFFFF : Nat) : Int) = ((0x0FFFFFFF : Nat) : Int) :=
    toI32_of_lt _ (by omega)
  have hn : ¬ (((0x0FFFFFFF : Nat) : Int) ≤ 0x0FFFFFEF) := by omega
  rw [root_eq, rootLoop_succ, ht, Outcome.bind_ok, hm, if_neg hn, Outcome.bind_ok]
  decide

/-- The start cluster computed from the record stored at `off`: with `high` and
`low` the unsigned 16-bit values on the image, it is `high * 65536 + low` when
`low < 0x8000`, and 65536 less (modulo `2^32`) when `low ≥ 0x8000`, because
`startClusterLow` is a signed field. -/
theorem startCluster_decode (m : Mem) (off : Nat)
    (h20 : m (off + 20) < 256) (h21 : m (off + 20 + 1) < 256)
    (h26 : m (off + 26) < 256) (h27 : m (off + 26 + 1) < 256) :
    ((ShortDirEntry.decode m off).startCluster : Int)
      = (((m (off + 20) : Int) + 256 * (m (off + 20 + 1) : Int)) * 65536
          + ((m (off + 26) : Int) + 256 * (m (off + 26 + 1) : Int))
          - (if 32768 ≤ (m (off + 26) : Int) + 256 * (m (off + 26 + 1) : Int) then 65536 else 0))
        % 4294967296 := by
  simp only [ShortDirEntry.startCluster, ShortDirEntry.decode, i16At, toU32_eq_emod]
  have ha : 0 ≤ (m (off + 20) : Int) ∧ (m (off + 20) : Int) < 256 := by omega
  have hb : 0 ≤ (m (off + 20 + 1) : Int) ∧ (m (off + 20 + 1) : Int) < 256 := by omega
  have hc : 0 ≤ (m (off + 26) : Int) ∧ (m (off + 26) : Int) < 256 := by omega
  have hd : 0 ≤ (m (off + 26 + 1) : Int) ∧ (m (off + 26 + 1) : Int) < 256 := by omega
  generalize (m (off + 20) : Int) = a at *
  generalize (m (off + 20 + 1) : Int) = b at *
  generalize (m (off + 26) : Int) = c at *
  generalize (m (off + 26 + 1) : Int) = d at *
  unfold toI32 toI16
  split <;> omega

set_option maxRecDepth 100000 in
/-- C13 at its failing input: the record `signRecord` stores `high = 0` and
`low = 0x8000` (bytes 20, 21 and 26, 27), i.e. start cluster 32768; the start
cluster computed by `File::read` and `walk` is `0xFFFF8000`. -/
theorem startCluster_low_sign_extended :
    [20, 21, 26, 27].map (fun i => signRecord.getD i 0) = [0, 0, 0x00, 0x80] ∧
    (0 * 65536 + 0x8000 = 32768) ∧
    (recordEntry signRecord).startCluster = 0xFFFF8000 := by
  decide

/-! ## The stored start cluster -/

/-- When the stored low half is below `0x8000`, the start cluster that the
program computes is the stored one. -/
theorem startCluster_eq_stored (e : ShortDirEntry) (h : e.LowClear) :
    e.startCluster = e.storedCluster := by
  obtain ⟨⟨hh0, hh1⟩, hl0, hl1⟩ := h
  have hs : ((e.storedCluster : Nat) : Int)
      = e.startClusterHigh % 65536 * 65536 + e.startClusterLow % 65536 := by
    unfold ShortDirEntry.storedCluster
    push_cast
    rw [Int.toNat_of_nonneg (Int.emod_nonneg _ (by norm_num)),
      Int.toNat_of_nonneg (Int.emod_nonneg _ (by norm_num))]
  have hc : ((e.startCluster : Nat) : Int)
      = (toI32 (toI32 (e.startClusterHigh * 65536) + e.startClusterLow)) % 4294967296 := by
    unfold ShortDirEntry.startCluster
    exact toU32_eq_emod _
  have : ((e.startCluster : Nat) : Int) = ((e.storedCluster : Nat) : Int) := by
    rw [hs, hc]
    unfold toI32
    omega
  exact_mod_cast this

/-- The stored start cluster of the record at `off` is `high * 65536 + low` of
the unsigned 16-bit numbers on the image. -/
theorem storedCluster_decode (m : Mem) (off : Nat)
    (h20 : m (off + 20) < 256) (h21 : m (off + 20 + 1) < 256)
    (h26 : m (off + 26) < 256) (h27 : m (off + 26 + 1) < 256) :
    (ShortDirEntry.decode m off).storedCluster
      = (m (off + 20) + 256 * m (off + 20 + 1)) * 65536
        + (m (off + 26) + 256 * m (off + 26 + 1)) := by
  have h : (((ShortDirEntry.decode m off).storedCluster : Nat) : Int)
      = (((m (off + 20) + 256 * m (off + 20 + 1)) * 65536
        + (m (off + 26) + 256 * m (off + 26 + 1)) : Nat) : Int) := by
    unfold ShortDirEntry.storedCluster
    push_cast
    rw [Int.toNat_of_nonneg (Int.emod_nonneg _ (by norm_num)),
      Int.toNat_of_nonneg (Int.emod_nonneg _ (by norm_num))]
    simp only [ShortDirEntry.decode, i16At]
    unfold toI16
    omega
  exact_mod_cast h

/-! ## C14: the number of bytes written -/

set_option maxRecDepth 100000 in
/-- C14 at its failing input: `read(buffer, 1, 1)` on the 1024-byte file of
`spanImage` should write `min(1, 1024) = 1` byte.  It writes 511 bytes of
`temp`: the zeroed buffer afterwards holds 102, 103, 108 and 170 at the
offsets 1, 2, 509 and 510.  And `read(buffer, 0, 1024)` on the root directory
of `wideImage` (two sectors per cluster) should write 1024 bytes; the offsets
512 and 513 keep their initial 0 where the cluster holds 70 and 49. -/
theorem File_read_count_counterexample :
    (File.isDir spanFile = false ∧ File.size spanFile = 1024 ∧
      (File.read spanImage spanFile (fun _ => 0) (fun _ => 170) 1 1).value?.map
          (fun m => [m 0, m 1, m 2, m 509, m 510, m 511])
        = some [101, 102, 103, 108, 170, 0]) ∧
    (File.isDir (rootEntryOf wideImage) = true ∧
      [512, 513].map (chainByte wideImage [2]) = [70, 49] ∧
      (File.read wideImage (rootEntryOf wideImage) (fun _ => 0) (fun _ => 0) 0 1024).value?.map
          (fun m => [m 0, m 512, m 513])
        = some [70, 0, 0]) := by
  decide

/-! ## C16: reading one cluster -/

set_option maxRecDepth 100000 in
/-- C16 at its failing input: in `wideImage` a cluster is 1024 bytes (two
sectors).  `Cluster::read` on cluster 2 with a requested size of 1024, and with
the default size -1, delivers the first sector only: offset 512 of the zeroed
buffer stays 0 where the cluster holds 70. -/
theorem Cluster_read_one_sector :
    wideImage.clusterBytes = 1024 ∧
    [0, 512].map (clusterByte wideImage 2) = [70, 70] ∧
    [0, 512].map (Cluster.read wideImage 2 (fun _ => 0) 0 1024) = [70, 0] ∧
    [0, 512].map (Cluster.read wideImage 2 (fun _ => 0) 0 (-1)) = [70, 0] := by
  decide

/-! ## C17: self and parent entries -/

theorem walkIsDot_iff (e : ShortDirEntry) :
    walkIsDot e = true ↔
      (e.name 0 = 46 ∧ (e.name 1 = 32 ∨ (e.name 1 = 46 ∧ e.name 2 = 32))) := by
  unfold walkIsDot
  by_cases h0 : e.name 0 = 46
  · by_cases h1 : e.name 1 = 46
    · by_cases h2 : e.name 2 = 32
      · simp [h0, h1, h2]
      · simp [h0, h1, h2]
    · by_cases h1s : e.name 1 = 32
      · simp [h0, h1, h1s]
      · simp [h0, h1, h1s]
  · simp [h0]

set_option maxRecDepth 100000 in
/-- C17, as stated, fails: the root directory of `dotDotImage` holds the one
record `..A.TXT`, whose first two name bytes are '.' and '.'; `walk` does not
skip it, does not treat it as a self/parent entry and counts it. -/
theorem walk_dot_counterexample :
    (dotDotEntry.name 0 = 46 ∧ dotDotEntry.name 1 = 46 ∧ dotDotEntry.name 2 = 65) ∧
    (walkSkips dotDotEntry = false ∧ walkIsDot dotDotEntry = false) ∧
    (File.entries dotDotImage (rootEntryOf dotDotImage) (fun _ => 0) (fun _ => 0) 4
        = Outcome.ok [dotDotEntry]) ∧
    main dotDotImage (fun _ => 0) (fun _ => 0) 16
      = Outcome.ok { maxCluster := 2, maxClusterF := 0, endSize := 17408, files := 1 } := by
  refine ⟨?_, ?_, ?_, ?_⟩
  · decide
  · decide
  · decide!
  · decide

/-- C17 (amended): for every directory record that `walk` does not skip as
vacant or long-name, the record is treated as a self/parent entry exactly when
its first name byte is '.' and either its second byte is a space, or its
second byte is '.' and its third byte is a space.  A self/parent entry is
neither counted in `files` nor recursed into: the loop goes on to the next
record with `files` unchanged.  Every other non-skipped record is counted: the
loop goes on with `files + 1`, after the recursive call when the record is a
directory. -/
theorem walk_dot_classification (fat : FileAllocationTable) (stack heap0 : Mem) (fuel : Nat)
    (root : ShortDirEntry) (level : Nat) (it it1 it2 it3 : DirEntryIterator) (st : WalkState)
    (entry : ShortDirEntry) (maxF : Nat)
    (h1 : DirEntryIterator.neEnd fat root stack it = Outcome.ok (true, it1))
    (h2 : DirEntryIterator.deref fat root stack it1 = Outcome.ok (entry, it2))
    (hs : walkSkips entry = false)
    (hc : walkChain fat fuel entry.startCluster st.maxClusterF = Outcome.ok maxF)
    (h3 : DirEntryIterator.incr fat root stack it2 = Outcome.ok it3) :
    (walkIsDot entry = true ↔
      (entry.name 0 = 46 ∧ (entry.name 1 = 32 ∨ (entry.name 1 = 46 ∧ entry.name 2 = 32)))) ∧
    (walkIsDot entry = true →
      walkLoop fat stack heap0 (fuel + 1) root level it st
        = walkLoop fat stack heap0 fuel root level it3
            { files := st.files, maxClusterF := maxF, out := st.out ++ [(level, entry)] }) ∧
    (walkIsDot entry = false → File.isDir entry = false →
      walkLoop fat stack heap0 (fuel + 1) root level it st
        = walkLoop fat stack heap0 fuel root level it3
            { files := toI32 (st.files + 1), maxClusterF := maxF,
              out := st.out ++ [(level, entry)] }) ∧
    (walkIsDot entry = false → File.isDir entry = true →
      walkLoop fat stack heap0 (fuel + 1) root level it st
        = Outcome.bind
            (walkLoop fat stack heap0 fuel entry (level + 1) (File.begin fat heap0)
              { files := toI32 (st.files + 1), maxClusterF := maxF,
                out := st.out ++ [(level, entry)] })
            (fun st3 => walkLoop fat stack heap0 fuel root level it3 st3)) := by
  have hstep := walkLoop_visit fat stack heap0 fuel root level it it1 it2 st entry h1 h2 hs
  rw [hc, Outcome.bind_ok, h3] at hstep
  refine ⟨walkIsDot_iff entry, ?_, ?_, ?_⟩
  · intro hd
    rw [hstep, if_pos hd, Outcome.bind_ok]
  · intro hd hdir
    rw [hstep, if_neg (by rw [hd]; decide), if_neg (by rw [hdir]; decide), Outcome.bind_ok]
  · intro hd hdir
    rw [hstep, if_neg (by rw [hd]; decide), if_pos hdir]
    rfl

/-! ## C19: table lookups stay inside the table -/

set_option maxRecDepth 100000 in
/-- C19 at its failing input: in `markerImage` every chain is a single cluster
whose entry is the end-of-chain marker `0x0FFFFFF8`, and the table has 128
entries.  `root()` stays inside the table, but the chain loop of `walk`, at
the record `SUBDIR` (start cluster 3), reads `table[0x0FFFFFF8]`: `main` ends
in that out-of-range access. -/
theorem main_markerImage_out_of_range :
    (markerImage.tableSize = 128 ∧
      [2, 3, 4].map (fun c => markerImage.table[c]?)
        = [some 0x0FFFFFF8, some 0x0FFFFFF8, some 0x0FFFFFF8]) ∧
    (markerImage.root 16).value?.map (fun e => e.startCluster) = some 2 ∧
    main markerImage (fun _ => 0) (fun _ => 0) 16
      = Outcome.fault (Fault.tableIndex 0x0FFFFFF8) := by
  decide

/-! ## C18: the maximum cluster observed by the walk -/

theorem Outcome.ok_ne_fault {α : Type} (a : α) (f : Fault) :
    (Outcome.fault f : Outcome α) ≠ Outcome.ok a := by
  intro h
  cases h

theorem Outcome.ok_inj {α : Type} (a b : α) (h : (Outcome.ok a : Outcome α) = Outcome.ok b) :
    a = b := by
  cases h
  rfl

theorem not_followed_of_stop (fat : FileAllocationTable) (h c : Nat)
    (hstop : ¬ (h > 2 ∧ h ≠ 0x0FFFFFFF)) : ¬ Followed fat h c := by
  intro hf
  cases hf with
  | head _ h2 hm => exact hstop ⟨h2, hm⟩
  | next _ e _ h2 hm _ _ => exact hstop ⟨h2, hm⟩

/-- The result of the chain loop of `walk`: the greatest of the previous
`maxClusterF` and the clusters on the followed part of the chain. -/
theorem walkChain_max (fat : FileAllocationTable) :
    ∀ (fuel h m r : Nat), walkChain fat fuel h m = Outcome.ok r →
      m ≤ r ∧ (∀ c, Followed fat h c → c ≤ r) ∧ (r = m ∨ Followed fat h r) := by
  intro fuel
  induction fuel with
  | zero =>
    intro h m r hrun
    rw [walkChain_zero] at hrun
    by_cases hcond : h > 2 ∧ h ≠ 0x0FFFFFFF
    · rw [if_pos hcond] at hrun
      exact absurd hrun (Outcome.ok_ne_fault _ _)
    · rw [if_neg hcond] at hrun
      have hr := Outcome.ok_inj _ _ hrun
      subst hr
      exact ⟨le_refl _, fun c hc => absurd hc (not_followed_of_stop fat h c hcond), Or.inl rfl⟩
  | succ fuel ih =>
    intro h m r hrun
    rw [walkChain_succ] at hrun
    by_cases hcond : h > 2 ∧ h ≠ 0x0FFFFFFF
    · rw [if_pos hcond] at hrun
      cases hget : fat.table[h]? with
      | none =>
        have hlen : fat.table.length ≤ h := by
          rcases Nat.lt_or_ge h fat.table.length with hlt | hge
          · rw [List.getElem?_eq_getElem hlt] at hget
            cases hget
          · exact hge
        rw [tableAt_of_length_le fat h hlen, Outcome.bind_fault] at hrun
        exact absurd hrun (Outcome.ok_ne_fault _ _)
      | some e =>
        rw [tableAt_of_getElem? fat h e hget, Outcome.bind_ok] at hrun
        obtain ⟨hle, hall, hatt⟩ := ih e (max m h) r hrun
        refine ⟨le_trans (le_max_left m h) hle, ?_, ?_⟩
        · intro c hc
          cases hc with
          | head _ _ _ => exact le_trans (le_max_right m h) hle
          | next _ e' _ _ _ he' hc' =>
            rw [hget] at he'
            cases he'
            exact hall c hc'
        · rcases hatt with hmax | hfol
          · rcases le_total m h with hmh | hmh
            · rw [max_eq_right hmh] at hmax
              right
              rw [hmax]
              exact Followed.head h hcond.1 hcond.2
            · rw [max_eq_left hmh] at hmax
              exact Or.inl hmax
          · exact Or.inr (Followed.next h e r hcond.1 hcond.2 hget hfol)
    · rw [if_neg hcond] at hrun
      have hr := Outcome.ok_inj _ _ hrun
      subst hr
      exact ⟨le_refl _, fun c hc => absurd hc (not_followed_of_stop fat h c hcond), Or.inl rfl⟩

theorem WalkMax.refl (fat : FileAllocationTable) (st : WalkState) : WalkMax fat st st :=
  ⟨[], by simp, le_refl _, by simp, Or.inl rfl⟩

theorem WalkMax.trans (fat : FileAllocationTable) (a b c : WalkState)
    (hab : WalkMax fat a b) (hbc : WalkMax fat b c) : WalkMax fat a c := by
  obtain ⟨a1, ho1, hm1, hb1, ha1⟩ := hab
  obtain ⟨a2, ho2, hm2, hb2, ha2⟩ := hbc
  refine ⟨a1 ++ a2, ?_, le_trans hm1 hm2, ?_, ?_⟩
  · rw [ho2, ho1, List.append_assoc]
  · intro p hp x hx
    rcases List.mem_append.mp hp with h1 | h2
    · exact le_trans (hb1 p h1 x hx) hm2
    · exact hb2 p h2 x hx
  · rcases ha2 with heq | ⟨p, hp, hf⟩
    · rcases ha1 with heq1 | ⟨p, hp, hf⟩
      · exact Or.inl (heq.trans heq1)
      · right
        refine ⟨p, List.mem_append.mpr (Or.inl hp), ?_⟩
        rw [heq]
        exact hf
    · exact Or.inr ⟨p, List.mem_append.mpr (Or.inr hp), hf⟩

theorem WalkMax.visit (fat : FileAllocationTable) (st : WalkState) (fuel level maxF : Nat)
    (files : Int) (entry : ShortDirEntry)
    (hc : walkChain fat fuel entry.startCluster st.maxClusterF = Outcome.ok maxF) :
    WalkMax fat st { files := files, maxClusterF := maxF, out := st.out ++ [(level, entry)] } := by
  obtain ⟨hle, hall, hatt⟩ := walkChain_max fat fuel entry.startCluster st.maxClusterF maxF hc
  refine ⟨[(level, entry)], rfl, hle, ?_, ?_⟩
  · intro p hp x hx
    have hpe : p = (level, entry) := by simpa using hp
    subst hpe
    exact hall x hx
  · rcases hatt with heq | hf
    · exact Or.inl heq
    · exact Or.inr ⟨(level, entry), by simp, hf⟩

/-- Every completed run of the loop of `walk` leaves in `maxClusterF` the
greatest of its previous value and the clusters on the followed part of the
chain of every entry it has logged. -/
theorem walkLoop_walkMax (fat : FileAllocationTable) (stack heap0 : Mem) :
    ∀ (fuel : Nat) (root : ShortDirEntry) (level : Nat) (it : DirEntryIterator)
      (st st' : WalkState),
      walkLoop fat stack heap0 fuel root level it st = Outcome.ok st' → WalkMax fat st st' := by
  intro fuel
  induction fuel with
  | zero =>
    intro root level it st st' h
    rw [walkLoop_zero] at h
    exact absurd h (Outcome.ok_ne_fault _ _)
  | succ fuel ih =>
    intro root level it st st' h
    rw [walkLoop_succ] at h
    rcases hne : DirEntryIterator.neEnd fat root stack it with ⟨more, it1⟩ | f
    · rw [hne, Outcome.bind_ok] at h
      dsimp only at h
      cases more with
      | false =>
        rw [if_neg (by decide)] at h
        rw [← Outcome.ok_inj _ _ h]
        exact WalkMax.refl fat st
      | true =>
        rw [if_pos rfl] at h
        rcases hd : DirEntryIterator.deref fat root stack it1 with ⟨entry, it2⟩ | f
        · rw [hd, Outcome.bind_ok] at h
          dsimp only at h
          by_cases hs : walkSkips entry = true
          · rw [if_pos hs] at h
            rcases hi : DirEntryIterator.incr fat root stack it2 with it3 | f
            · rw [hi, Outcome.bind_ok] at h
              exact ih root level it3 st st' h
            · rw [hi, Outcome.bind_fault] at h
              exact absurd h (Outcome.ok_ne_fault _ _)
          · rw [if_neg hs] at h
            rcases hc : walkChain fat fuel entry.startCluster st.maxClusterF with maxF | f
            · rw [hc, Outcome.bind_ok] at h
              by_cases hdot : walkIsDot entry = true
              · rw [if_pos hdot] at h
                rcases hi : DirEntryIterator.incr fat root stack it2 with it3 | f
                · rw [hi, Outcome.bind_ok] at h
                  exact WalkMax.trans fat _ _ _
                    (WalkMax.visit fat st fuel level maxF st.files entry hc)
                    (ih root level it3 _ st' h)
                · rw [hi, Outcome.bind_fault] at h
                  exact absurd h (Outcome.ok_ne_fault _ _)
              · rw [if_neg hdot] at h
                by_cases hdir : File.isDir entry = true
                · rw [if_pos hdir] at h
                  rcases hrec : walkLoop fat stack heap0 fuel entry (level + 1)
                      (File.begin fat heap0)
                      { files := toI32 (st.files + 1), maxClusterF := maxF,
                        out := st.out ++ [(level, entry)] } with st3 | f
                  · rw [hrec, Outcome.bind_ok] at h
                    rcases hi : DirEntryIterator.incr fat root stack it2 with it3 | f
                    · rw [hi, Outcome.bind_ok] at h
                      exact WalkMax.trans fat _ _ _
                        (WalkMax.visit fat st fuel level maxF (toI32 (st.files + 1)) entry hc)
                        (WalkMax.trans fat _ _ _ (ih entry (level + 1) _ _ st3 hrec)
                          (ih root level it3 st3 st' h))
                    · rw [hi, Outcome.bind_fault] at h
                      exact absurd h (Outcome.ok_ne_fault _ _)
                  · rw [hrec, Outcome.bind_fault] at h
                    exact absurd h (Outcome.ok_ne_fault _ _)
                · rw [if_neg hdir] at h
                  rcases hi : DirEntryIterator.incr fat root stack it2 with it3 | f
                  · rw [hi, Outcome.bind_ok] at h
                    exact WalkMax.trans fat _ _ _
                      (WalkMax.visit fat st fuel level maxF (toI32 (st.files + 1)) entry hc)
                      (ih root level it3 _ st' h)
                  · rw [hi, Outcome.bind_fault] at h
                    exact absurd h (Outcome.ok_ne_fault _ _)
            · rw [hc, Outcome.bind_fault] at h
              exact absurd h (Outcome.ok_ne_fault _ _)
        · rw [hd, Outcome.bind_fault] at h
          exact absurd h (Outcome.ok_ne_fault _ _)
    · rw [hne, Outcome.bind_fault] at h
      exact absurd h (Outcome.ok_ne_fault _ _)

/-- For every terminating run of `walk`, the final `maxClusterF` is the largest
cluster on the followed parts of the chains of the entries in the log, each
chain taken from the start cluster that the program computes for the entry. -/
theorem walk_maxClusterF_computed (fat : FileAllocationTable) (stack heap0 : Mem) (fuel : Nat)
    (root : ShortDirEntry) (st : WalkState)
    (hrun : walk fat stack heap0 fuel root = Outcome.ok st) :
    (∀ p ∈ st.out, ∀ c, Followed fat p.2.startCluster c → c ≤ st.maxClusterF) ∧
    (st.maxClusterF = 0 ∨ ∃ p ∈ st.out, Followed fat p.2.startCluster st.maxClusterF) := by
  obtain ⟨added, hout, _, hall, hatt⟩ :=
    walkLoop_walkMax fat stack heap0 fuel root 0 (File.begin fat heap0)
      { files := 0, maxClusterF := 0, out := [] } st hrun
  have hadd : st.out = added := by simpa using hout
  rw [hadd]
  exact ⟨hall, hatt⟩

theorem clusterBytes_of_one (fat : FileAllocationTable) (hspc : fat.fs.sectorsPerCluster = 1)
    (h0 : 0 ≤ fat.fs.bytesPerSector) (h1 : fat.fs.bytesPerSector ≤ 32767) :
    (fat.clusterBytes : Int) = fat.fs.bytesPerSector := by
  unfold FileAllocationTable.clusterBytes
  rw [toU32_eq_emod, hspc, one_mul]
  unfold toI32
  omega

theorem toI16_of_le (n : Int) (h0 : 0 ≤ n) (h1 : n ≤ 32767) : toI16 n = n := by
  unfold toI16
  omega

theorem toU32_of_lt (n : Nat) (h : n < 4294967296) : toU32 (n : Int) = n := by
  unfold toU32
  omega

/-- `Cluster::read` for a request of at most one sector, when a cluster is one
sector: the `n` bytes at the start of the cluster are copied. -/
theorem Cluster.read_eq (fat : FileAllocationTable) (c : Nat) (buf : Mem) (off n : Nat)
    (hn : (n : Int) ≤ fat.fs.bytesPerSector) (hb : fat.fs.bytesPerSector ≤ 32767)
    (hcb : (fat.clusterBytes : Int) = fat.fs.bytesPerSector) :
    Cluster.read fat c buf off (n : Int)
      = memcpy buf off fat.disk (Cluster.startSector fat.fs c * fat.fs.bytesPerSector.toNat) n := by
  have hne : ¬ ((n : Int) = -1) := by omega
  have hle : ¬ ((n : Int) > (fat.clusterBytes : Int)) := by omega
  have hpos : (0 : Int) ≤ (Cluster.startSector fat.fs c : Int) * fat.fs.bytesPerSector :=
    Int.mul_nonneg (by omega) (by omega)
  have hmin : min fat.fs.bytesPerSector (toI16 (n : Int)) = (n : Int) := by
    rw [toI16_of_le _ (by omega) (by omega)]
    exact min_eq_right hn
  have hp : ((Cluster.startSector fat.fs c : Int) * fat.fs.bytesPerSector).toNat
      = Cluster.startSector fat.fs c * fat.fs.bytesPerSector.toNat := by
    have hb0 : (0 : Int) ≤ fat.fs.bytesPerSector := by omega
    obtain ⟨b, hbe⟩ := Int.eq_ofNat_of_zero_le hb0
    rw [hbe]
    simp
    exact_mod_cast rfl
  unfold Cluster.read FileAllocationTable.readSector
  simp only [if_neg hne, if_neg hle, if_pos hpos, hmin, hp, Int.toNat_ofNat]

theorem iterator.advance_zero (fat : FileAllocationTable) (c : Nat) :
    iterator.advance fat 0 c = Outcome.ok c := rfl

theorem iterator.advance_succ (fat : FileAllocationTable) (n c : Nat) :
    iterator.advance fat (n + 1) c
      = Outcome.bind (iterator.next fat c) (fun d => iterator.advance fat n d) := rfl

theorem iterator.next_terminal (fat : FileAllocationTable) :
    iterator.next fat 0x0FFFFFFF = Outcome.ok 0x0FFFFFFF := by
  simp [iterator.next, pure]

theorem iterator.next_of_getElem? (fat : FileAllocationTable) (c e : Nat)
    (hc : c ≠ 0x0FFFFFFF) (he : fat.table[c]? = some e) :
    iterator.next fat c = Outcome.ok e := by
  unfold iterator.next
  rw [if_pos hc]
  exact tableAt_of_getElem? fat c e he

theorem iterator.advance_terminal (fat : FileAllocationTable) :
    ∀ n, iterator.advance fat n 0x0FFFFFFF = Outcome.ok 0x0FFFFFFF := by
  intro n
  induction n with
  | zero => rfl
  | succ n ih => rw [iterator.advance_succ, iterator.next_terminal, Outcome.bind_ok, ih]

theorem File.readLoop_zero (fat : FileAllocationTable) (length : Int) (s : ReadState) :
    File.readLoop fat length 0 s
      = if s.cursor < length then Outcome.fault Fault.outOfFuel else Outcome.ok s := rfl

theorem File.readLoop_done (fat : FileAllocationTable) (length : Int) (fuel : Nat)
    (s : ReadState) (h : ¬ s.cursor < length) : File.readLoop fat length fuel s = Outcome.ok s := by
  cases fuel with
  | zero => rw [File.readLoop_zero, if_neg h]
  | succ fuel =>
    rw [File.readLoop, if_neg h]
    rfl

/-- One iteration of the loop of `File::read` in a state with `startBytes = 0`. -/
theorem File.readLoop_aligned (fat : FileAllocationTable) (length : Int) (fuel : Nat)
    (s : ReadState) (h : s.cursor < length) (hs : s.startBytes = 0) :
    File.readLoop fat length (fuel + 1) s
      = Outcome.bind (iterator.next fat s.iter) (fun it =>
          File.readLoop fat length fuel
            { cursor := s.cursor + (toU32 (min (length - s.cursor) (fat.clusterBytes : Int)) : Nat)
              startBytes := 0
              iter := it
              buf := Cluster.read fat s.iter s.buf s.bufOff
                (toU32 (min (length - s.cursor) (fat.clusterBytes : Int)) : Nat)
              bufOff := s.bufOff + toU32 (min (length - s.cursor) (fat.clusterBytes : Int))
              temp := s.temp
              reads := s.reads ++ [Cluster.startSector fat.fs s.iter] }) := by
  rw [File.readLoop, if_pos h]
  have hne : ¬ (s.startBytes ≠ 0) := by omega
  simp only [if_neg hne]
  rfl

theorem File.readLoop_aligned_pos (fat : FileAllocationTable) (length : Int) (fuel : Nat)
    (s : ReadState) (hf : 0 < fuel) (h : s.cursor < length) (hs : s.startBytes = 0) :
    File.readLoop fat length fuel s
      = Outcome.bind (iterator.next fat s.iter) (fun it =>
          File.readLoop fat length (fuel - 1)
            { cursor := s.cursor + (toU32 (min (length - s.cursor) (fat.clusterBytes : Int)) : Nat)
              startBytes := 0
              iter := it
              buf := Cluster.read fat s.iter s.buf s.bufOff
                (toU32 (min (length - s.cursor) (fat.clusterBytes : Int)) : Nat)
              bufOff := s.bufOff + toU32 (min (length - s.cursor) (fat.clusterBytes : Int))
              temp := s.temp
              reads := s.reads ++ [Cluster.startSector fat.fs s.iter] }) := by
  cases fuel with
  | zero => omega
  | succ fuel => exact File.readLoop_aligned fat length fuel s h hs

theorem File.run_eq (fat : FileAllocationTable) (e : ShortDirEntry) (buf temp0 : Mem)
    (start length : Int) (h : fat.clusterBytes ≠ 0) :
    File.run fat e buf temp0 start length
      = Outcome.bind
          (iterator.advance fat (toU32 (Int.tdiv start (fat.clusterBytes : Int))) e.startCluster)
          (fun iter =>
            File.readLoop fat
              (min length (if File.isDir e = true then LONG_MAX else (File.size e : Int)))
              (min length (if File.isDir e = true then LONG_MAX else (File.size e : Int))).toNat
              { cursor := 0
                startBytes := toU32 (Int.tmod start (fat.clusterBytes : Int))
                iter := iter
                buf := buf
                bufOff := 0
                temp := temp0
                reads := [] }) := by
  unfold File.run
  simp only [if_neg h]
  rfl

/-- `File::read(buffer, k * bytesPerSector, n)` with one sector per cluster and
`0 < n ≤ bytesPerSector`: the iterator is advanced `k` times, the `n` bytes at
the start of the cluster reached are copied to `buffer[0..n)` in one read, and
the iterator is advanced once more. -/
theorem File.run_sector (fat : FileAllocationTable) (e : ShortDirEntry) (buf temp0 : Mem)
    (k n c c' : Nat)
    (hspc : fat.fs.sectorsPerCluster = 1) (hb0 : 0 < fat.fs.bytesPerSector)
    (hb1 : fat.fs.bytesPerSector ≤ 32767) (hn0 : 0 < n) (hn : (n : Int) ≤ fat.fs.bytesPerSector)
    (hlen : File.isDir e = true ∨ n ≤ File.size e) (hk : k < 4294967296)
    (hadv : iterator.advance fat k e.startCluster = Outcome.ok c)
    (hnext : iterator.next fat c = Outcome.ok c') :
    File.run fat e buf temp0 ((k : Int) * fat.fs.bytesPerSector) (n : Int)
      = Outcome.ok
          { cursor := (n : Int)
            startBytes := 0
            iter := c'
            buf := memcpy buf 0 fat.disk
              (Cluster.startSector fat.fs c * fat.fs.bytesPerSector.toNat) n
            bufOff := n
            temp := temp0
            reads := [Cluster.startSector fat.fs c] } := by
  have hcb := clusterBytes_of_one fat hspc (by omega) hb1
  have hcb0 : fat.clusterBytes ≠ 0 := by
    intro h
    rw [h] at hcb
    simp at hcb
    omega
  have hbne : fat.fs.bytesPerSector ≠ 0 := by omega
  have hmin : min (n : Int) (if File.isDir e = true then LONG_MAX else (File.size e : Int))
      = (n : Int) := by
    apply min_eq_left
    by_cases hd : File.isDir e = true
    · rw [if_pos hd]
      unfold LONG_MAX
      omega
    · rw [if_neg hd]
      rcases hlen with h | h
      · exact absurd h hd
      · exact_mod_cast h
  have hskip : toU32 (Int.tdiv ((k : Int) * fat.fs.bytesPerSector) (fat.clusterBytes : Int)) = k := by
    rw [hcb, Int.mul_tdiv_cancel _ hbne]
    exact toU32_of_lt k hk
  have hsb : toU32 (Int.tmod ((k : Int) * fat.fs.bytesPerSector) (fat.clusterBytes : Int)) = 0 := by
    rw [hcb, Int.mul_tmod_left]
    rfl
  have hread : toU32 (min ((n : Int) - 0) (fat.clusterBytes : Int)) = n := by
    rw [hcb, Int.sub_zero, min_eq_left hn]
    exact toU32_of_lt n (by omega)
  rw [File.run_eq fat e buf temp0 _ _ hcb0, hskip, hadv, Outcome.bind_ok, hmin, hsb,
    Int.toNat_ofNat]
  have hlt : (0 : Int) < (n : Int) := by omega
  rw [File.readLoop_aligned_pos fat _ n _ hn0 hlt rfl]
  dsimp only
  rw [hread, hnext, Outcome.bind_ok, Cluster.read_eq fat c buf 0 n hn hb1 hcb,
    File.readLoop_done]
  · simp
  · simp

theorem Outcome.bind_assoc {α β γ : Type} (x : Outcome α) (f : α → Outcome β)
    (g : β → Outcome γ) :
    Outcome.bind (Outcome.bind x f) g = Outcome.bind x (fun a => Outcome.bind (f a) g) := by
  cases x <;> rfl

theorem Outcome.bind_ok_right {α : Type} (x : Outcome α) :
    Outcome.bind x Outcome.ok = x := by
  cases x <;> rfl

theorem iterator.advance_succ_right (fat : FileAllocationTable) :
    ∀ (n c : Nat), iterator.advance fat (n + 1) c
      = Outcome.bind (iterator.advance fat n c) (fun d => iterator.next fat d) := by
  intro n
  induction n with
  | zero =>
    intro c
    rw [iterator.advance_succ, iterator.advance_zero, Outcome.bind_ok]
    exact Outcome.bind_ok_right _
  | succ n ih =>
    intro c
    rw [iterator.advance_succ, iterator.advance_succ fat n c, Outcome.bind_assoc]
    congr 1
    funext d
    exact ih d

theorem chainPos_zero (c : Nat) (rest : List Nat) (mark : Nat) :
    chainPos (c :: rest) mark 0 = c := by
  simp [chainPos]

theorem chainPos_succ (c : Nat) (rest : List Nat) (mark k : Nat) :
    chainPos (c :: rest) mark (k + 1) = chainPos rest mark k := by
  simp [chainPos]

theorem chainPos_nil (mark k : Nat) : chainPos [] mark k = mark := by
  simp [chainPos]

theorem chainPos_of_getElem? (cs : List Nat) (mark k c : Nat) (h : cs[k]? = some c) :
    chainPos cs mark k = c := by
  simp [chainPos, h]

theorem chainPos_of_length_le (cs : List Nat) (mark k : Nat) (h : cs.length ≤ k) :
    chainPos cs mark k = mark := by
  simp [chainPos, List.getElem?_eq_none h]

/-- Advancing the iterator `k` times from the head of a chain reaches the
`k`-th cluster of the chain, the entry `mark` after the last cluster, and stays
at `mark` when `mark` is `0x0FFFFFFF`. -/
theorem iterator.advance_chain (fat : FileAllocationTable) (mark : Nat) :
    ∀ (cs : List Nat) (h k : Nat), ChainFrom fat h cs mark → (∀ c ∈ cs, c ≠ 0x0FFFFFFF) →
      (k ≤ cs.length ∨ mark = 0x0FFFFFFF) →
      iterator.advance fat k h = Outcome.ok (chainPos cs mark k) := by
  intro cs
  induction cs with
  | nil =>
    intro h k hch _ _
    exact absurd hch (by simp [ChainFrom])
  | cons c rest ih =>
    intro h k hch hne hk
    cases k with
    | zero =>
      have hc : c = h := by
        cases rest with
        | nil => exact hch.1
        | cons d rest => exact hch.1
      rw [iterator.advance_zero, chainPos_zero, hc]
    | succ k =>
      rw [iterator.advance_succ, chainPos_succ]
      cases rest with
      | nil =>
        obtain ⟨hc, hget⟩ := hch
        subst hc
        rw [iterator.next_of_getElem? fat c mark (hne c (by simp)) hget, Outcome.bind_ok,
          chainPos_nil]
        cases k with
        | zero => rfl
        | succ k =>
          rcases hk with hk | hk
          · simp at hk
          · rw [hk]
            exact iterator.advance_terminal fat _
      | cons d rest =>
        obtain ⟨hc, hget, hrest⟩ := hch
        subst hc
        rw [iterator.next_of_getElem? fat c d (hne c (by simp)) hget, Outcome.bind_ok]
        apply ih d k hrest (fun x hx => hne x (List.mem_cons_of_mem _ hx))
        rcases hk with hk | hk
        · left
          simpa using hk
        · exact Or.inr hk

/-- The advance that follows the read of the `k`-th cluster of a chain. -/
theorem iterator.next_chain (fat : FileAllocationTable) (mark : Nat) (cs : List Nat)
    (h k : Nat) (hch : ChainFrom fat h cs mark) (hne : ∀ c ∈ cs, c ≠ 0x0FFFFFFF)
    (hk : k < cs.length ∨ mark = 0x0FFFFFFF) :
    iterator.next fat (chainPos cs mark k) = Outcome.ok (chainPos cs mark (k + 1)) := by
  have h1 := iterator.advance_chain fat mark cs h k hch hne
    (by rcases hk with hk | hk
        · exact Or.inl (by omega)
        · exact Or.inr hk)
  have h2 := iterator.advance_chain fat mark cs h (k + 1) hch hne
    (by rcases hk with hk | hk
        · exact Or.inl (by omega)
        · exact Or.inr hk)
  rw [iterator.advance_succ_right, h1, Outcome.bind_ok] at h2
  exact h2

theorem memcpy_lt (dst src : Mem) (srcOff n i : Nat) (h : i < n) :
    memcpy dst 0 src srcOff n i = src (srcOff + i) := by
  unfold memcpy
  rw [if_pos ⟨Nat.zero_le _, by omega⟩]
  simp

theorem memcpy_ge (dst src : Mem) (srcOff n i : Nat) (h : n ≤ i) :
    memcpy dst 0 src srcOff n i = dst i := by
  unfold memcpy
  rw [if_neg (by omega)]

theorem File.read_of_run (fat : FileAllocationTable) (e : ShortDirEntry) (buf temp0 : Mem)
    (start length : Int) (s : ReadState)
    (h : File.run fat e buf temp0 start length = Outcome.ok s) :
    File.read fat e buf temp0 start length = Outcome.ok s.buf ∧
    File.reads fat e buf temp0 start length = Outcome.ok s.reads := by
  constructor
  · show Outcome.bind (File.run fat e buf temp0 start length) _ = _
    rw [h]
    rfl
  · show Outcome.bind (File.run fat e buf temp0 start length) _ = _
    rw [h]
    rfl

/-! ## C15: requests beyond the end of the chain -/

theorem DiskGeometry.load_bytesPerSector (d : DiskGeometry) (h : d.bytesPerSector < 32768) :
    d.load.bytesPerSector = (d.bytesPerSector : Int) :=
  toI16_of_nat_lt _ h

theorem DiskGeometry.load_sectorsPerCluster (d : DiskGeometry) (h : d.sectorsPerCluster < 128) :
    d.load.sectorsPerCluster = (d.sectorsPerCluster : Int) :=
  toI8_of_nat_lt _ h

theorem clusterBytes_nat (fat : FileAllocationTable) (B : Nat)
    (hspc : fat.fs.sectorsPerCluster = 1) (hB : fat.fs.bytesPerSector = (B : Int))
    (hb1 : fat.fs.bytesPerSector ≤ 32767) : fat.clusterBytes = B := by
  have h := clusterBytes_of_one fat hspc (by omega) hb1
  rw [hB] at h
  exact_mod_cast h

/-- The bytes of the sector number `s` of the contents of a chain. -/
theorem chainByte_sector (fat : FileAllocationTable) (cs : List Nat) (B s c i : Nat)
    (hcb : fat.clusterBytes = B) (hbn : fat.fs.bytesPerSector.toNat = B)
    (hc : cs[s]? = some c) (hi : i < B) :
    chainByte fat cs (s * B + i) = fat.disk (Cluster.startSector fat.fs c * B + i) := by
  have hB0 : 0 < B := by omega
  have hdiv : (s * B + i) / B = s := by
    rw [Nat.add_comm, Nat.add_mul_div_right _ _ hB0, Nat.div_eq_of_lt hi, Nat.zero_add]
  have hmod : (s * B + i) % B = i := by
    rw [Nat.add_comm, Nat.add_mul_mod_self_right, Nat.mod_eq_of_lt hi]
  unfold chainByte
  rw [hcb, hdiv, hc]
  simp only [clusterByte, Cluster.getSector, hbn, hmod]

theorem ShortDirEntry.decode_congr (m1 m2 : Mem) (o1 o2 : Nat)
    (h : ∀ t, t < 32 → m1 (o1 + t) = m2 (o2 + t)) :
    ShortDirEntry.decode m1 o1 = ShortDirEntry.decode m2 o2 := by
  have e8 : ∀ t, t < 32 → i8At m1 (o1 + t) = i8At m2 (o2 + t) := by
    intro t ht
    unfold i8At
    rw [h t ht]
  have e16 : ∀ t, t + 1 < 32 → i16At m1 (o1 + t) = i16At m2 (o2 + t) := by
    intro t ht
    unfold i16At
    rw [h t (by omega), Nat.add_assoc, Nat.add_assoc, h (t + 1) ht]
  have e32 : ∀ t, t + 3 < 32 → i32At m1 (o1 + t) = i32At m2 (o2 + t) := by
    intro t ht
    unfold i32At
    rw [h t (by omega), Nat.add_assoc o1, Nat.add_assoc o2, h (t + 1) (by omega),
      Nat.add_assoc o1, Nat.add_assoc o2, h (t + 2) (by omega),
      Nat.add_assoc o1, Nat.add_assoc o2, h (t + 3) ht]
  have en : (List.range 8).map (fun k => i8At m1 (o1 + k))
      = (List.range 8).map (fun k => i8At m2 (o2 + k)) := by
    apply List.map_congr_left
    intro k hk
    exact e8 k (by have := List.mem_range.mp hk; omega)
  have ee : (List.range 3).map (fun k => i8At m1 (o1 + 8 + k))
      = (List.range 3).map (fun k => i8At m2 (o2 + 8 + k)) := by
    apply List.map_congr_left
    intro k hk
    have hk3 := List.mem_range.mp hk
    rw [Nat.add_assoc, Nat.add_assoc]
    exact e8 (8 + k) (by omega)
  unfold ShortDirEntry.decode
  rw [en, ee, e8 11 (by omega), e8 12 (by omega), e8 13 (by omega), e16 14 (by omega),
    e16 16 (by omega), e16 18 (by omega), e16 20 (by omega), e16 22 (by omega),
    e16 24 (by omega), e16 26 (by omega), e32 28 (by omega)]

theorem DirEntryIterator.loadFile_eq (fat : FileAllocationTable) (dir : ShortDirEntry)
    (stack : Mem) (it : DirEntryIterator) :
    DirEntryIterator.loadFile fat dir stack it
      = Outcome.bind
          (File.run fat dir it.entries stack it.nextFileOffset it.bytesPerSector)
          (fun s => Outcome.ok
            { fileCursor := it.fileCursor
              entries := s.buf
              bytesPerSector := it.bytesPerSector
              filesPerSector := it.filesPerSector
              currentMaxFileNum := toI32 (it.currentMaxFileNum + it.filesPerSector)
              nextFileOffset := toI32 (it.nextFileOffset + it.bytesPerSector)
              reads := it.reads ++ s.reads }) := rfl

/-- A refill of the iterator's buffer from the sector number `s` of the
directory, which the chain iterator finds at cluster `c`. -/
theorem DirEntryIterator.loadFile_sector (fat : FileAllocationTable) (dir : ShortDirEntry)
    (stack : Mem) (it : DirEntryIterator) (fps s c c' : Nat)
    (hspc : fat.fs.sectorsPerCluster = 1) (hdir : File.isDir dir = true)
    (hB : fat.fs.bytesPerSector = ((32 * fps : Nat) : Int)) (hfps : 0 < fps)
    (hb1 : fat.fs.bytesPerSector ≤ 32767)
    (hsz : (s + 1) * (32 * fps) < 2147483648)
    (hadv : iterator.advance fat s dir.startCluster = Outcome.ok c)
    (hnext : iterator.next fat c = Outcome.ok c')
    (hbps : it.bytesPerSector = ((32 * fps : Nat) : Int))
    (hf : it.filesPerSector = (fps : Int))
    (hmax : it.currentMaxFileNum = ((s * fps : Nat) : Int))
    (hoff : it.nextFileOffset = ((s * (32 * fps) : Nat) : Int)) :
    DirEntryIterator.loadFile fat dir stack it
      = Outcome.ok
          { fileCursor := it.fileCursor
            entries := memcpy it.entries 0 fat.disk
              (Cluster.startSector fat.fs c * (32 * fps)) (32 * fps)
            bytesPerSector := it.bytesPerSector
            filesPerSector := it.filesPerSector
            currentMaxFileNum := (((s + 1) * fps : Nat) : Int)
            nextFileOffset := (((s + 1) * (32 * fps) : Nat) : Int)
            reads := it.reads ++ [Cluster.startSector fat.fs c] } := by
  have hbn : fat.fs.bytesPerSector.toNat = 32 * fps := by
    rw [hB]
    exact Int.toNat_ofNat _
  have hs32 : s < 4294967296 := by
    have : s * 1 ≤ s * (32 * fps) := Nat.mul_le_mul_left s (by omega)
    have h2 : s * (32 * fps) ≤ (s + 1) * (32 * fps) := Nat.mul_le_mul_right _ (by omega)
    omega
  have hstart : it.nextFileOffset = (s : Int) * fat.fs.bytesPerSector := by
    rw [hoff, hB]
    push_cast
    ring
  have hrun := File.run_sector fat dir it.entries stack s (32 * fps) c c' hspc
    (by rw [hB]; exact_mod_cast (by omega : 0 < 32 * fps)) hb1 (by omega)
    (by rw [hB]) (Or.inl hdir) hs32 hadv hnext
  rw [DirEntryIterator.loadFile_eq, hstart, hbps, ← hB]
  rw [← hB] at hrun
  rw [hrun, Outcome.bind_ok]
  have e1 : toI32 (it.currentMaxFileNum + it.filesPerSector) = (((s + 1) * fps : Nat) : Int) := by
    rw [hmax, hf]
    have hle : (s + 1) * fps ≤ (s + 1) * (32 * fps) := Nat.mul_le_mul_left _ (by omega)
    have hcast : ((s * fps : Nat) : Int) + (fps : Int) = (((s + 1) * fps : Nat) : Int) := by
      push_cast
      ring
    rw [hcast]
    exact toI32_of_lt _ (by omega)
  have e2 : toI32 ((s : Int) * fat.fs.bytesPerSector + fat.fs.bytesPerSector)
      = (((s + 1) * (32 * fps) : Nat) : Int) := by
    have hcast : (s : Int) * fat.fs.bytesPerSector + fat.fs.bytesPerSector
        = (((s + 1) * (32 * fps) : Nat) : Int) := by
      rw [hB]
      push_cast
      ring
    rw [hcast]
    exact toI32_of_lt _ hsz
  rw [e1, e2, hbn]

theorem DirEntryIterator.deref_eq (fat : FileAllocationTable) (dir : ShortDirEntry)
    (stack : Mem) (it : DirEntryIterator) :
    DirEntryIterator.deref fat dir stack it
      = if it.fileCursor = it.currentMaxFileNum then
          Outcome.bind (DirEntryIterator.loadFile fat dir stack it) (fun it1 =>
            if it1.filesPerSector = 0 then Outcome.fault Fault.divideByZero
            else Outcome.ok
              (ShortDirEntry.decode it1.entries
                (32 * (Int.tmod it1.fileCursor it1.filesPerSector).toNat), it1))
        else if it.filesPerSector = 0 then Outcome.fault Fault.divideByZero
        else Outcome.ok
          (ShortDirEntry.decode it.entries
            (32 * (Int.tmod it.fileCursor it.filesPerSector).toNat), it) := rfl

theorem DirEntryIterator.neEnd_eq (fat : FileAllocationTable) (dir : ShortDirEntry)
    (stack : Mem) (it : DirEntryIterator) :
    DirEntryIterator.neEnd fat dir stack it
      = Outcome.bind (DirEntryIterator.deref fat dir stack it)
          (fun q => Outcome.ok (q.1.name 0 != 0, q.2)) := rfl

theorem DirEntryIterator.incr_eq (fat : FileAllocationTable) (dir : ShortDirEntry)
    (stack : Mem) (it : DirEntryIterator) :
    DirEntryIterator.incr fat dir stack it
      = if it.currentMaxFileNum = it.fileCursor + 1 then
          DirEntryIterator.loadFile fat dir stack
            { fileCursor := it.fileCursor + 1
              entries := it.entries
              bytesPerSector := it.bytesPerSector
              filesPerSector := it.filesPerSector
              currentMaxFileNum := it.currentMaxFileNum
              nextFileOffset := it.nextFileOffset
              reads := it.reads }
        else Outcome.ok
            { fileCursor := it.fileCursor + 1
              entries := it.entries
              bytesPerSector := it.bytesPerSector
              filesPerSector := it.filesPerSector
              currentMaxFileNum := it.currentMaxFileNum
              nextFileOffset := it.nextFileOffset
              reads := it.reads } := rfl

theorem DirEntryIterator.take_zero (fat : FileAllocationTable) (dir : ShortDirEntry)
    (stack : Mem) (it : DirEntryIterator) :
    DirEntryIterator.take fat dir stack 0 it = Outcome.ok ([], it, false) := rfl

theorem DirEntryIterator.take_succ (fat : FileAllocationTable) (dir : ShortDirEntry)
    (stack : Mem) (n : Nat) (it : DirEntryIterator) :
    DirEntryIterator.take fat dir stack (n + 1) it
      = Outcome.bind (DirEntryIterator.neEnd fat dir stack it) (fun p =>
          if p.1 = true then
            Outcome.bind (DirEntryIterator.deref fat dir stack p.2) (fun q =>
              Outcome.bind (DirEntryIterator.incr fat dir stack q.2) (fun it3 =>
                Outcome.bind (DirEntryIterator.take fat dir stack n it3) (fun r =>
                  Outcome.ok (q.1 :: r.1, r.2.1, r.2.2))))
          else Outcome.ok ([], p.2, true)) := rfl

theorem DirEntryIterator.collect_zero (fat : FileAllocationTable) (dir : ShortDirEntry)
    (stack : Mem) (it : DirEntryIterator) :
    DirEntryIterator.collect fat dir stack 0 it = Outcome.fault Fault.outOfFuel := rfl

theorem DirEntryIterator.collect_succ (fat : FileAllocationTable) (dir : ShortDirEntry)
    (stack : Mem) (n : Nat) (it : DirEntryIterator) :
    DirEntryIterator.collect fat dir stack (n + 1) it
      = Outcome.bind (DirEntryIterator.neEnd fat dir stack it) (fun p =>
          if p.1 = true then
            Outcome.bind (DirEntryIterator.deref fat dir stack p.2) (fun q =>
              Outcome.bind (DirEntryIterator.incr fat dir stack q.2) (fun it3 =>
                Outcome.bind (DirEntryIterator.collect fat dir stack n it3) (fun rest =>
                  Outcome.ok (q.1 :: rest))))
          else Outcome.ok []) := rfl

theorem div_succ_cases (j fps : Nat) (h : 0 < fps) :
    ((j / fps + 1) * fps = j + 1 ∧ (j + 1) / fps = j / fps + 1) ∨
    ((j / fps + 1) * fps ≠ j + 1 ∧ (j + 1) / fps = j / fps) := by
  have hq := Nat.div_add_mod j fps
  have hr := Nat.mod_lt j h
  have hmul : (j / fps + 1) * fps = fps * (j / fps) + fps := by
    rw [Nat.add_mul, Nat.one_mul, Nat.mul_comm]
  by_cases hlast : j % fps + 1 = fps
  · left
    refine ⟨by omega, ?_⟩
    apply Nat.div_eq_of_lt_le
    · rw [hmul]
      omega
    · rw [Nat.add_mul, Nat.one_mul, hmul]
      omega
  · right
    refine ⟨by omega, ?_⟩
    apply Nat.div_eq_of_lt_le
    · rw [Nat.mul_comm]
      omega
    · rw [hmul]
      omega

theorem lt_div_succ_mul (j fps : Nat) (h : 0 < fps) : j < (j / fps + 1) * fps := by
  have hq := Nat.div_add_mod j fps
  have hr := Nat.mod_lt j h
  have hmul : (j / fps + 1) * fps = fps * (j / fps) + fps := by
    rw [Nat.add_mul, Nat.one_mul, Nat.mul_comm]
  omega

/-- In a loaded state the entry under the cursor is the record number `j` of
the chain contents, and `*iter` refills nothing. -/
theorem DirEntryIterator.deref_loaded (fat : FileAllocationTable) (dir : ShortDirEntry)
    (stack : Mem) (cs : List Nat) (fps j : Nat) (it : DirEntryIterator) (hfps : 0 < fps)
    (hit : IterAt fat cs fps it j) :
    DirEntryIterator.deref fat dir stack it = Outcome.ok (chainRecord fat cs j, it) := by
  obtain ⟨hcur, _, hf, hmax, _, hent, _⟩ := hit
  have hlt := lt_div_succ_mul j fps hfps
  have hne : ¬ (it.fileCursor = it.currentMaxFileNum) := by
    rw [hcur, hmax]
    intro h
    have : j = (j / fps + 1) * fps := by exact_mod_cast h
    omega
  have hf0 : ¬ (it.filesPerSector = 0) := by
    rw [hf]
    omega
  have hidx : (Int.tmod it.fileCursor it.filesPerSector).toNat = j % fps := by
    rw [hcur, hf, ← Int.ofNat_tmod]
    exact Int.toNat_ofNat _
  rw [DirEntryIterator.deref_eq, if_neg hne, if_neg hf0, hidx]
  have hr := Nat.mod_lt j hfps
  have hq := Nat.div_add_mod j fps
  have hrec : ShortDirEntry.decode it.entries (32 * (j % fps)) = chainRecord fat cs j := by
    unfold chainRecord
    apply ShortDirEntry.decode_congr
    intro t ht
    rw [hent (32 * (j % fps) + t) (by omega)]
    congr 1
    have hm : j / fps * (32 * fps) = 32 * (fps * (j / fps)) := by ring
    rw [hm]
    omega
  rw [hrec]

theorem DirEntryIterator.neEnd_loaded (fat : FileAllocationTable) (dir : ShortDirEntry)
    (stack : Mem) (cs : List Nat) (fps j : Nat) (it : DirEntryIterator) (hfps : 0 < fps)
    (hit : IterAt fat cs fps it j) :
    DirEntryIterator.neEnd fat dir stack it
      = Outcome.ok ((chainRecord fat cs j).name 0 != 0, it) := by
  rw [DirEntryIterator.neEnd_eq, DirEntryIterator.deref_loaded fat dir stack cs fps j it hfps hit,
    Outcome.bind_ok]

theorem SectorDirectory.ne_terminal {fat : FileAllocationTable} {dir : ShortDirEntry}
    {cs : List Nat} {mark : Nat} (hs : SectorDirectory fat dir cs mark) :
    ∀ c ∈ cs, c ≠ 0x0FFFFFFF := fun c hc => by
  have := hs.belowMarkers c hc
  omega

/-- A refill at the start of sector `s` of a directory chain leaves the iterator
in the loaded state of any record `j` of that sector. -/
theorem DirEntryIterator.load_at (fat : FileAllocationTable) (dir : ShortDirEntry)
    (stack : Mem) (cs : List Nat) (mark fps j s c : Nat) (it : DirEntryIterator)
    (hs : SectorDirectory fat dir cs mark)
    (hB : fat.fs.bytesPerSector = ((32 * fps : Nat) : Int)) (hfps : 0 < fps)
    (hc : cs[s]? = some c) (hdiv : j / fps = s)
    (hsz : (s + 1) * (32 * fps) < 2147483648)
    (hcur : it.fileCursor = (j : Int))
    (hbps : it.bytesPerSector = ((32 * fps : Nat) : Int))
    (hf : it.filesPerSector = (fps : Int))
    (hmax : it.currentMaxFileNum = ((s * fps : Nat) : Int))
    (hoff : it.nextFileOffset = ((s * (32 * fps) : Nat) : Int))
    (hreads : it.reads = (cs.take s).map (Cluster.startSector fat.fs)) :
    ∃ it1, DirEntryIterator.loadFile fat dir stack it = Outcome.ok it1 ∧
      IterAt fat cs fps it1 j := by
  have hb1 : fat.fs.bytesPerSector ≤ 32767 := hs.inRange.1.2
  have hlen : s < cs.length := by
    by_contra hcon
    rw [List.getElem?_eq_none (by omega)] at hc
    exact Option.noConfusion hc
  have hadv := iterator.advance_chain fat mark cs dir.startCluster s hs.wellFormed.2.1
    hs.ne_terminal (Or.inl (by omega))
  have hnext := iterator.next_chain fat mark cs dir.startCluster s hs.wellFormed.2.1
    hs.ne_terminal (Or.inl hlen)
  rw [chainPos_of_getElem? cs mark s c hc] at hadv hnext
  refine ⟨_, DirEntryIterator.loadFile_sector fat dir stack it fps s c _ hs.oneSector hs.isDir
    hB hfps hb1 hsz hadv hnext hbps hf hmax hoff, ?_⟩
  have hcb := clusterBytes_nat fat (32 * fps) hs.oneSector hB hb1
  have hbn : fat.fs.bytesPerSector.toNat = 32 * fps := by
    rw [hB]
    exact Int.toNat_ofNat _
  refine ⟨hcur, hbps, hf, ?_, ?_, ?_, ?_⟩
  · show (((s + 1) * fps : Nat) : Int) = _
    rw [hdiv]
  · show (((s + 1) * (32 * fps) : Nat) : Int) = _
    rw [hdiv]
  · intro i hi
    show memcpy it.entries 0 fat.disk (Cluster.startSector fat.fs c * (32 * fps)) (32 * fps) i = _
    rw [memcpy_lt _ _ _ _ _ hi, hdiv, chainByte_sector fat cs (32 * fps) s c i hcb hbn hc hi]
  · show it.reads ++ [Cluster.startSector fat.fs c] = _
    rw [hreads, hdiv, List.take_succ, hc]
    simp

theorem File.begin_filesPerSector (fat : FileAllocationTable) (heap0 : Mem) (fps : Nat)
    (hB : fat.fs.bytesPerSector = ((32 * fps : Nat) : Int))
    (hb1 : fat.fs.bytesPerSector ≤ 32767) :
    (File.begin fat heap0).filesPerSector = (fps : Int) := by
  show toI32 ((fat.fs.bytesPerSector % 18446744073709551616) / 32) = (fps : Int)
  have h : (fat.fs.bytesPerSector % 18446744073709551616) / 32 = (fps : Int) := by
    rw [hB] at hb1 ⊢
    push_cast at hb1 ⊢
    omega
  rw [h]
  apply toI32_of_lt
  rw [hB] at hb1
  push_cast at hb1
  omega

/-- The first refill of the iterator `begin()`. -/
theorem DirEntryIterator.load_begin (fat : FileAllocationTable) (dir : ShortDirEntry)
    (stack heap0 : Mem) (cs : List Nat) (mark fps : Nat)
    (hs : SectorDirectory fat dir cs mark)
    (hB : fat.fs.bytesPerSector = ((32 * fps : Nat) : Int)) (hfps : 0 < fps)
    (hlen : 0 < cs.length) :
    ∃ it1, DirEntryIterator.loadFile fat dir stack (File.begin fat heap0) = Outcome.ok it1 ∧
      IterAt fat cs fps it1 0 := by
  have hb1 : fat.fs.bytesPerSector ≤ 32767 := hs.inRange.1.2
  have hb : 32 * fps ≤ 32767 := by
    rw [hB] at hb1
    exact_mod_cast hb1
  exact DirEntryIterator.load_at fat dir stack cs mark fps 0 0 cs[0] (File.begin fat heap0) hs hB
    hfps (List.getElem?_eq_getElem hlen) (Nat.zero_div fps) (by omega) rfl hB
    (File.begin_filesPerSector fat heap0 fps hB hb1) (by simp [File.begin]) (by simp [File.begin])
    (by simp [File.begin])

theorem DirEntryIterator.deref_inner (fat : FileAllocationTable) (cs : List Nat) (fps j : Nat)
    (it : DirEntryIterator) (hfps : 0 < fps) (hit : IterAt fat cs fps it j) :
    (if it.filesPerSector = 0 then Outcome.fault Fault.divideByZero
      else Outcome.ok
        (ShortDirEntry.decode it.entries
          (32 * (Int.tmod it.fileCursor it.filesPerSector).toNat), it))
      = Outcome.ok (chainRecord fat cs j, it) := by
  have h := DirEntryIterator.deref_loaded fat
    (ShortDirEntry.decode (fun _ => 0) 0) (fun _ => 0) cs fps j it hfps hit
  have hlt := lt_div_succ_mul j fps hfps
  have hne : ¬ (it.fileCursor = it.currentMaxFileNum) := by
    rw [hit.1, hit.2.2.2.1]
    intro h
    have : j = (j / fps + 1) * fps := by exact_mod_cast h
    omega
  rw [DirEntryIterator.deref_eq, if_neg hne] at h
  exact h

/-- Dereferencing `begin()` refills from the first sector of the chain and
yields record 0. -/
theorem DirEntryIterator.deref_begin (fat : FileAllocationTable) (dir : ShortDirEntry)
    (stack heap0 : Mem) (cs : List Nat) (mark fps : Nat)
    (hs : SectorDirectory fat dir cs mark)
    (hB : fat.fs.bytesPerSector = ((32 * fps : Nat) : Int)) (hfps : 0 < fps)
    (hlen : 0 < cs.length) :
    ∃ it1, DirEntryIterator.deref fat dir stack (File.begin fat heap0)
        = Outcome.ok (chainRecord fat cs 0, it1) ∧ IterAt fat cs fps it1 0 := by
  obtain ⟨it1, hload, hit⟩ := DirEntryIterator.load_begin fat dir stack heap0 cs mark fps hs hB
    hfps hlen
  refine ⟨it1, ?_, hit⟩
  have hc : (File.begin fat heap0).fileCursor = (File.begin fat heap0).currentMaxFileNum := rfl
  rw [DirEntryIterator.deref_eq, if_pos hc, hload, Outcome.bind_ok]
  exact DirEntryIterator.deref_inner fat cs fps 0 it1 hfps hit

/-- The increment of a loaded iterator whose next record still lies in the
chain. -/
theorem DirEntryIterator.incr_loaded (fat : FileAllocationTable) (dir : ShortDirEntry)
    (stack : Mem) (cs : List Nat) (mark fps j : Nat) (it : DirEntryIterator)
    (hs : SectorDirectory fat dir cs mark)
    (hB : fat.fs.bytesPerSector = ((32 * fps : Nat) : Int)) (hfps : 0 < fps)
    (hsz : cs.length * (32 * fps) < 2147483648)
    (hj : j + 1 < cs.length * fps)
    (hit : IterAt fat cs fps it j) :
    ∃ it1, DirEntryIterator.incr fat dir stack it = Outcome.ok it1 ∧
      IterAt fat cs fps it1 (j + 1) := by
  obtain ⟨hcur, hbps, hf, hmax, hoff, hent, hreads⟩ := hit
  have hslen : (j + 1) / fps < cs.length := (Nat.div_lt_iff_lt_mul hfps).2 hj
  rw [DirEntryIterator.incr_eq]
  rcases div_succ_cases j fps hfps with ⟨hm, hd⟩ | ⟨hm, hd⟩
  · have hcond : it.currentMaxFileNum = it.fileCursor + 1 := by
      rw [hmax, hcur, hm]
      push_cast
      rfl
    rw [if_pos hcond]
    have hsz2 : ((j + 1) / fps + 1) * (32 * fps) < 2147483648 :=
      Nat.lt_of_le_of_lt (Nat.mul_le_mul_right _ hslen) hsz
    exact DirEntryIterator.load_at fat dir stack cs mark fps (j + 1) ((j + 1) / fps)
      cs[(j + 1) / fps] _ hs hB hfps (List.getElem?_eq_getElem hslen) rfl hsz2
      (by show it.fileCursor + 1 = _; rw [hcur]; push_cast; rfl) hbps hf
      (by show it.currentMaxFileNum = _; rw [hmax, hd])
      (by show it.nextFileOffset = _; rw [hoff, hd])
      (by show it.reads = _; rw [hreads, hd])
  · have hcond : ¬ (it.currentMaxFileNum = it.fileCursor + 1) := by
      rw [hmax, hcur]
      intro h
      exact hm (by exact_mod_cast h)
    rw [if_neg hcond]
    refine ⟨_, rfl, ?_, hbps, hf, ?_, ?_, ?_, ?_⟩
    · show it.fileCursor + 1 = _
      rw [hcur]
      push_cast
      rfl
    · show it.currentMaxFileNum = _
      rw [hmax, hd]
    · show it.nextFileOffset = _
      rw [hoff, hd]
    · intro i hi
      show it.entries i = _
      rw [hent i hi, hd]
    · show it.reads = _
      rw [hreads, hd]

/-- One iteration of the enumeration loop from a loaded state whose record is
not vacant: the record is yielded and the iterator incremented. -/
theorem DirEntryIterator.take_step (fat : FileAllocationTable) (dir : ShortDirEntry)
    (stack : Mem) (cs : List Nat) (fps j n : Nat) (it : DirEntryIterator) (hfps : 0 < fps)
    (hit : IterAt fat cs fps it j) (hrec : (chainRecord fat cs j).name 0 ≠ 0) :
    DirEntryIterator.take fat dir stack (n + 1) it
      = Outcome.bind (DirEntryIterator.incr fat dir stack it) (fun it3 =>
          Outcome.bind (DirEntryIterator.take fat dir stack n it3) (fun r =>
            Outcome.ok (chainRecord fat cs j :: r.1, r.2.1, r.2.2))) := by
  have hb : ((chainRecord fat cs j).name 0 != 0) = true := by
    simpa using hrec
  rw [DirEntryIterator.take_succ, DirEntryIterator.neEnd_loaded fat dir stack cs fps j it hfps hit,
    Outcome.bind_ok]
  dsimp only
  rw [if_pos hb, DirEntryIterator.deref_loaded fat dir stack cs fps j it hfps hit,
    Outcome.bind_ok]

/-- The enumeration from a loaded state yields the records of the chain one
after the other, as long as they lie in the chain and are not vacant. -/
theorem DirEntryIterator.take_loaded (fat : FileAllocationTable) (dir : ShortDirEntry)
    (stack : Mem) (cs : List Nat) (mark fps : Nat)
    (hs : SectorDirectory fat dir cs mark)
    (hB : fat.fs.bytesPerSector = ((32 * fps : Nat) : Int)) (hfps : 0 < fps)
    (hsz : cs.length * (32 * fps) < 2147483648) :
    ∀ (n j : Nat) (it : DirEntryIterator), IterAt fat cs fps it j → j + n < cs.length * fps →
      (∀ i, j ≤ i → i < j + n → (chainRecord fat cs i).name 0 ≠ 0) →
      ∃ it1, DirEntryIterator.take fat dir stack n it
          = Outcome.ok ((List.range' j n).map (chainRecord fat cs), it1, false) ∧
        IterAt fat cs fps it1 (j + n) := by
  intro n
  induction n with
  | zero =>
    intro j it hit _ _
    exact ⟨it, rfl, hit⟩
  | succ n ih =>
    intro j it hit hj hrec
    obtain ⟨it3, hincr, hit3⟩ := DirEntryIterator.incr_loaded fat dir stack cs mark fps j it hs hB
      hfps hsz (by omega) hit
    obtain ⟨it1, htake, hit1⟩ := ih (j + 1) it3 hit3 (by omega)
      (fun i h1 h2 => hrec i (by omega) (by omega))
    refine ⟨it1, ?_, ?_⟩
    · rw [DirEntryIterator.take_step fat dir stack cs fps j n it hfps hit
        (hrec j (Nat.le_refl j) (by omega)), hincr, Outcome.bind_ok, htake, Outcome.bind_ok]
      rfl
    · have e : j + (n + 1) = j + 1 + n := by omega
      rw [e]
      exact hit1

/-- The enumeration from `begin()`: the first `j` records and the iterator at
record `j`, for `j >= 1`. -/
theorem DirEntryIterator.take_begin (fat : FileAllocationTable) (dir : ShortDirEntry)
    (stack heap0 : Mem) (cs : List Nat) (mark fps n : Nat)
    (hs : SectorDirectory fat dir cs mark)
    (hB : fat.fs.bytesPerSector = ((32 * fps : Nat) : Int)) (hfps : 0 < fps)
    (hsz : cs.length * (32 * fps) < 2147483648)
    (hn : n + 1 < cs.length * fps)
    (hrec : ∀ i, i < n + 1 → (chainRecord fat cs i).name 0 ≠ 0) :
    ∃ it1, DirEntryIterator.take fat dir stack (n + 1) (File.begin fat heap0)
        = Outcome.ok ((List.range (n + 1)).map (chainRecord fat cs), it1, false) ∧
      IterAt fat cs fps it1 (n + 1) := by
  have hlen : 0 < cs.length := by
    rcases Nat.eq_zero_or_pos cs.length with h | h
    · rw [h] at hn
      omega
    · exact h
  obtain ⟨it0, hderef, hit0⟩ := DirEntryIterator.deref_begin fat dir stack heap0 cs mark fps hs hB
    hfps hlen
  obtain ⟨it1, htake, hit1⟩ := DirEntryIterator.take_loaded fat dir stack cs mark fps hs hB hfps
    hsz (n + 1) 0 it0 hit0 (by omega) (fun i _ h2 => hrec i (by omega))
  have hsame : DirEntryIterator.take fat dir stack (n + 1) (File.begin fat heap0)
      = DirEntryIterator.take fat dir stack (n + 1) it0 := by
    rw [DirEntryIterator.take_succ, DirEntryIterator.take_succ, DirEntryIterator.neEnd_eq,
      DirEntryIterator.neEnd_eq, hderef,
      DirEntryIterator.deref_loaded fat dir stack cs fps 0 it0 hfps hit0]
  refine ⟨it1, ?_, ?_⟩
  · rw [hsame, htake, List.range_eq_range']
  · have e : 0 + (n + 1) = n + 1 := by omega
    rw [← e]
    exact hit1

/-! ## Directories in terms of the stored volume: theorems -/

theorem DiskGeometry.load_inRange (d : DiskGeometry) : d.load.InRange := by
  unfold Fat32Extend.InRange DiskGeometry.load toI16 toI8 toI32
  simp only
  omega

theorem StoredDirectory.bytesPerSector_eq {d : DiskGeometry} {fat : FileAllocationTable}
    {dir : ShortDirEntry} {cs : List Nat} {mark : Nat} (hs : StoredDirectory d fat dir cs mark) :
    fat.fs.bytesPerSector = (d.bytesPerSector : Int) := by
  rw [hs.loaded]
  exact d.load_bytesPerSector hs.bytesPerSector_lt

/-- A directory described by what the volume stores is a directory in terms
of the values that the program holds. -/
theorem StoredDirectory.toSector {d : DiskGeometry} {fat : FileAllocationTable}
    {dir : ShortDirEntry} {cs : List Nat} {mark : Nat} (hs : StoredDirectory d fat dir cs mark) :
    SectorDirectory fat dir cs mark :=
  { inRange := by
      rw [hs.loaded]
      exact d.load_inRange
    oneSector := by
      rw [hs.loaded, d.load_sectorsPerCluster (by rw [hs.oneSector]; omega), hs.oneSector]
      rfl
    isDir := hs.isDir
    wellFormed := by
      rw [startCluster_eq_stored dir hs.lowClear]
      exact hs.wellFormed
    belowMarkers := hs.belowMarkers }

/-- The start sector that the program computes for a cluster of the chain is
the sector of the formula on the stored geometry. -/
theorem StoredDirectory.startSector_eq {d : DiskGeometry} {fat : FileAllocationTable}
    {dir : ShortDirEntry} {cs : List Nat} {mark : Nat} (hs : StoredDirectory d fat dir cs mark)
    (c : Nat) (hc : c ∈ cs) : Cluster.startSector fat.fs c = d.sector c := by
  rw [hs.loaded]
  exact startSector_load_of_fits d c (hs.wellFormed.2.2.1 c hc).1
    (by rw [hs.oneSector]; omega) hs.tableArea (hs.sectorFits c hc)

theorem StoredDirectory.chainByte_eq {d : DiskGeometry} {fat : FileAllocationTable}
    {dir : ShortDirEntry} {cs : List Nat} {mark : Nat} (hs : StoredDirectory d fat dir cs mark) :
    chainByte fat cs = d.chainByte fat.disk cs := by
  funext j
  have hB := hs.bytesPerSector_eq
  have hb1 : fat.fs.bytesPerSector ≤ 32767 := by
    have := hs.bytesPerSector_lt
    omega
  have hcb : fat.clusterBytes = d.sectorsPerCluster * d.bytesPerSector := by
    rw [hs.oneSector, Nat.one_mul]
    exact clusterBytes_nat fat d.bytesPerSector hs.toSector.oneSector hB hb1
  have hbn : fat.fs.bytesPerSector.toNat = d.bytesPerSector := by
    rw [hB]
    exact Int.toNat_ofNat _
  unfold chainByte DiskGeometry.chainByte
  rw [hcb]
  rcases hget : cs[j / (d.sectorsPerCluster * d.bytesPerSector)]? with _ | c
  · rfl
  · have hc : c ∈ cs := List.getElem?_mem hget
    show clusterByte fat c _ = d.clusterByte fat.disk c _
    unfold clusterByte DiskGeometry.clusterByte Cluster.getSector
    rw [hs.startSector_eq c hc, hbn]

theorem StoredDirectory.chainRecord_eq {d : DiskGeometry} {fat : FileAllocationTable}
    {dir : ShortDirEntry} {cs : List Nat} {mark : Nat} (hs : StoredDirectory d fat dir cs mark) :
    chainRecord fat cs = d.chainRecord fat.disk cs := by
  funext j
  unfold chainRecord DiskGeometry.chainRecord
  rw [hs.chainByte_eq]

set_option maxRecDepth 100000 in
/-- The root entries of the concrete images `fullImage` and `oddImage` are the
entries that `root()` builds. -/
theorem concrete_roots :
    fullImage.root 16 = Outcome.ok fullRoot ∧ oddImage.root 16 = Outcome.ok oddRoot := by
  decide

set_option maxRecDepth 100000 in
/-- The root directory of `fullImage`, on the chain 2 -> 5, in terms of the
stored volume. -/
theorem fullImage_directory :
    StoredDirectory minimalDisk fullImage fullRoot [2, 5] 0x0FFFFFFF :=
  { loaded := by decide
    bytesPerSector_lt := by decide
    oneSector := by decide
    tableArea := by decide
    isDir := by decide
    lowClear := by decide
    wellFormed := ⟨by decide, ⟨by decide, by decide, by decide, by decide⟩, by decide, by decide,
      by decide, by decide⟩
    belowMarkers := by decide
    sectorFits := by decide }

/-! ## C20: sector reads and the records of the directory stream -/

/-- In terms of the values that the program holds: a read of at most one sector
at the sector boundary number `k` delivers the start of the cluster at position
`k` of the chain, and the enumeration of a directory whose sectors hold `fps`
whole records yields the records of the chain contents. -/
theorem File_read_sector_computed (fat : FileAllocationTable) (dir : ShortDirEntry)
    (cs : List Nat) (mark : Nat) (buf temp0 stack heap0 : Mem) (k n c : Nat)
    (hs : SectorDirectory fat dir cs mark) (hk : cs[k]? = some c)
    (hn0 : 0 < n) (hn : (n : Int) ≤ fat.fs.bytesPerSector) :
    (∃ m, File.read fat dir buf temp0 ((k : Int) * fat.fs.bytesPerSector) (n : Int)
          = Outcome.ok m ∧
        File.reads fat dir buf temp0 ((k : Int) * fat.fs.bytesPerSector) (n : Int)
          = Outcome.ok [Cluster.getSector fat c] ∧
        (∀ i, i < n → m i = clusterByte fat c i) ∧ (∀ i, n ≤ i → m i = buf i)) ∧
    (∀ fps j : Nat, fat.fs.bytesPerSector = ((32 * fps : Nat) : Int) → 0 < fps →
      cs.length * (32 * fps) < 2147483648 → j < cs.length * fps →
      (∀ i, i < j → (chainRecord fat cs i).name 0 ≠ 0) →
      ∃ it it1, DirEntryIterator.take fat dir stack j (File.begin fat heap0)
          = Outcome.ok ((List.range j).map (chainRecord fat cs), it, false) ∧
        DirEntryIterator.deref fat dir stack it = Outcome.ok (chainRecord fat cs j, it1)) := by
  constructor
  · have hb1 : fat.fs.bytesPerSector ≤ 32767 := hs.inRange.1.2
    have hb0 : 0 < fat.fs.bytesPerSector := by omega
    have hklen : k < cs.length := by
      by_contra hcon
      rw [List.getElem?_eq_none (by omega)] at hk
      exact Option.noConfusion hk
    have hk32 : k < 4294967296 := by
      rcases chain_length_le 0x0FFFFFF8 cs
        (fun c hc => ⟨(hs.wellFormed.2.2.1 c hc).1, hs.belowMarkers c hc⟩)
        hs.wellFormed.2.2.2.1 with h | h
      · omega
      · rw [h] at hklen
        exact absurd hklen (by simp)
    have hadv := iterator.advance_chain fat mark cs dir.startCluster k hs.wellFormed.2.1
      hs.ne_terminal (Or.inl (by omega))
    have hnext := iterator.next_chain fat mark cs dir.startCluster k hs.wellFormed.2.1
      hs.ne_terminal (Or.inl hklen)
    rw [chainPos_of_getElem? cs mark k c hk] at hadv hnext
    have hrun := File.run_sector fat dir buf temp0 k n c _ hs.oneSector hb0 hb1 hn0 hn
      (Or.inl hs.isDir) hk32 hadv hnext
    obtain ⟨h1, h2⟩ := File.read_of_run fat dir buf temp0 _ _ _ hrun
    refine ⟨_, h1, h2, ?_, ?_⟩
    · intro i hi
      show memcpy buf 0 fat.disk _ n i = _
      rw [memcpy_lt _ _ _ _ _ hi]
      rfl
    · intro i hi
      show memcpy buf 0 fat.disk _ n i = _
      rw [memcpy_ge _ _ _ _ _ hi]
  · intro fps j hB hfps hsz hj hrec
    cases j with
    | zero =>
      have hlen : 0 < cs.length := by
        rcases Nat.eq_zero_or_pos cs.length with h | h
        · rw [h] at hj
          omega
        · exact h
      obtain ⟨it1, hderef, _⟩ := DirEntryIterator.deref_begin fat dir stack heap0 cs mark fps hs
        hB hfps hlen
      exact ⟨File.begin fat heap0, it1, rfl, hderef⟩
    | succ j =>
      obtain ⟨it, htake, hit⟩ := DirEntryIterator.take_begin fat dir stack heap0 cs mark fps j hs
        hB hfps hsz hj hrec
      exact ⟨it, it, htake, DirEntryIterator.deref_loaded fat dir stack cs fps (j + 1) it hfps hit⟩

/-- The increment after the last record of a full chain that ends in
`0x0FFFFFFF`: the buffer is refilled from the sector computed from the marker. -/
theorem DirEntryIterator.incr_last (fat : FileAllocationTable) (dir : ShortDirEntry)
    (stack : Mem) (cs : List Nat) (fps j : Nat) (it : DirEntryIterator)
    (hs : SectorDirectory fat dir cs 0x0FFFFFFF)
    (hB : fat.fs.bytesPerSector = ((32 * fps : Nat) : Int)) (hfps : 0 < fps)
    (hsz : (cs.length + 1) * (32 * fps) < 2147483648)
    (hj : j + 1 = cs.length * fps)
    (hit : IterAt fat cs fps it j) :
    ∃ it1, DirEntryIterator.incr fat dir stack it = Outcome.ok it1 ∧
      it1.reads = cs.map (Cluster.startSector fat.fs)
        ++ [Cluster.startSector fat.fs 0x0FFFFFFF] ∧
      it1.fileCursor = ((cs.length * fps : Nat) : Int) := by
  obtain ⟨hcur, hbps, hf, hmax, hoff, _, hreads⟩ := hit
  have hb1 : fat.fs.bytesPerSector ≤ 32767 := hs.inRange.1.2
  have hdivL : (j + 1) / fps = cs.length := by
    rw [hj]
    exact Nat.mul_div_cancel _ hfps
  have hle : j / fps * fps ≤ j := Nat.div_mul_le_self j fps
  have hd : j / fps + 1 = cs.length := by
    rcases div_succ_cases j fps hfps with ⟨_, h⟩ | ⟨_, h⟩
    · omega
    · rw [hdivL] at h
      rw [← h] at hle
      omega
  rw [hd] at hmax hoff hreads
  have hcond : it.currentMaxFileNum = it.fileCursor + 1 := by
    rw [hmax, hcur, ← hj]
    push_cast
    rfl
  have hadv := iterator.advance_chain fat 0x0FFFFFFF cs dir.startCluster cs.length
    hs.wellFormed.2.1 hs.ne_terminal (Or.inr rfl)
  rw [chainPos_of_length_le cs 0x0FFFFFFF cs.length (Nat.le_refl _)] at hadv
  rw [DirEntryIterator.incr_eq, if_pos hcond]
  refine ⟨_, DirEntryIterator.loadFile_sector fat dir stack _ fps cs.length 0x0FFFFFFF
    0x0FFFFFFF hs.oneSector hs.isDir hB hfps hb1 hsz hadv (iterator.next_terminal fat) hbps hf
    hmax hoff, ?_, ?_⟩
  · show it.reads ++ [Cluster.startSector fat.fs 0x0FFFFFFF] = _
    rw [hreads, List.take_length]
  · show it.fileCursor + 1 = _
    rw [hcur, ← hj]
    push_cast
    rfl

/-- The enumeration from a loaded state up to and including the last record of
a full chain that ends in `0x0FFFFFFF`. -/
theorem DirEntryIterator.take_to_end (fat : FileAllocationTable) (dir : ShortDirEntry)
    (stack : Mem) (cs : List Nat) (fps : Nat)
    (hs : SectorDirectory fat dir cs 0x0FFFFFFF)
    (hB : fat.fs.bytesPerSector = ((32 * fps : Nat) : Int)) (hfps : 0 < fps)
    (hsz : (cs.length + 1) * (32 * fps) < 2147483648) :
    ∀ (n j : Nat) (it : DirEntryIterator), IterAt fat cs fps it j →
      j + (n + 1) = cs.length * fps →
      (∀ i, j ≤ i → i < cs.length * fps → (chainRecord fat cs i).name 0 ≠ 0) →
      ∃ it1, DirEntryIterator.take fat dir stack (n + 1) it
          = Outcome.ok ((List.range' j (n + 1)).map (chainRecord fat cs), it1, false) ∧
        it1.reads = cs.map (Cluster.startSector fat.fs)
          ++ [Cluster.startSector fat.fs 0x0FFFFFFF] ∧
        it1.fileCursor = ((cs.length * fps : Nat) : Int) := by
  have hsz1 : cs.length * (32 * fps) < 2147483648 :=
    Nat.lt_of_le_of_lt (Nat.mul_le_mul_right _ (Nat.le_succ _)) hsz
  intro n
  induction n with
  | zero =>
    intro j it hit hj hrec
    obtain ⟨it1, hincr, hr, hc⟩ := DirEntryIterator.incr_last fat dir stack cs fps j it hs hB hfps
      hsz hj hit
    refine ⟨it1, ?_, hr, hc⟩
    rw [DirEntryIterator.take_step fat dir stack cs fps j 0 it hfps hit
      (hrec j (Nat.le_refl j) (by omega)), hincr, Outcome.bind_ok, DirEntryIterator.take_zero,
      Outcome.bind_ok]
    rfl
  | succ n ih =>
    intro j it hit hj hrec
    obtain ⟨it3, hincr, hit3⟩ := DirEntryIterator.incr_loaded fat dir stack cs 0x0FFFFFFF fps j
      it hs hB hfps hsz1 (by omega) hit
    obtain ⟨it1, htake, hr, hc⟩ := ih (j + 1) it3 hit3 (by omega)
      (fun i h1 h2 => hrec i (by omega) h2)
    refine ⟨it1, ?_, hr, hc⟩
    rw [DirEntryIterator.take_step fat dir stack cs fps j (n + 1) it hfps hit
      (hrec j (Nat.le_refl j) (by omega)), hincr, Outcome.bind_ok, htake, Outcome.bind_ok]
    rfl

/-- In terms of the values that the program holds: the enumeration of a full
directory whose chain ends in `0x0FFFFFFF` yields the records of the chain and
has then refilled from the sector computed from the marker. -/
theorem enumeration_past_chain_computed (fat : FileAllocationTable) (dir : ShortDirEntry)
    (stack heap0 : Mem) (cs : List Nat) (fps : Nat)
    (hs : SectorDirectory fat dir cs 0x0FFFFFFF)
    (hB : fat.fs.bytesPerSector = ((32 * fps : Nat) : Int)) (hfps : 0 < fps)
    (hsz : (cs.length + 1) * (32 * fps) < 2147483648)
    (hrec : ∀ i, i < cs.length * fps → (chainRecord fat cs i).name 0 ≠ 0) :
    ∃ it, DirEntryIterator.take fat dir stack (cs.length * fps) (File.begin fat heap0)
        = Outcome.ok ((List.range (cs.length * fps)).map (chainRecord fat cs), it, false) ∧
      it.reads = cs.map (Cluster.startSector fat.fs)
        ++ [Cluster.startSector fat.fs 0x0FFFFFFF] ∧
      it.fileCursor = ((cs.length * fps : Nat) : Int) := by
  have hlen : 0 < cs.length := by
    rcases Nat.eq_zero_or_pos cs.length with h | h
    · have hnil : cs = [] := List.length_eq_zero.1 h
      have hch := hs.wellFormed.2.1
      rw [hnil] at hch
      exact absurd hch (by simp [ChainFrom])
    · exact h
  have hpos : 0 < cs.length * fps := Nat.mul_pos hlen hfps
  obtain ⟨n, hn⟩ : ∃ n, cs.length * fps = n + 1 := ⟨cs.length * fps - 1, by omega⟩
  obtain ⟨it0, hderef, hit0⟩ := DirEntryIterator.deref_begin fat dir stack heap0 cs 0x0FFFFFFF
    fps hs hB hfps hlen
  obtain ⟨it1, htake, hr, hc⟩ := DirEntryIterator.take_to_end fat dir stack cs fps hs hB hfps
    hsz n 0 it0 hit0 (by omega) (fun i _ h2 => hrec i h2)
  have hsame : DirEntryIterator.take fat dir stack (n + 1) (File.begin fat heap0)
      = DirEntryIterator.take fat dir stack (n + 1) it0 := by
    rw [DirEntryIterator.take_succ, DirEntryIterator.take_succ, DirEntryIterator.neEnd_eq,
      DirEntryIterator.neEnd_eq, hderef,
      DirEntryIterator.deref_loaded fat dir stack cs fps 0 it0 hfps hit0]
  refine ⟨it1, ?_, hr, hc⟩
  rw [hn, hsame, htake, List.range_eq_range']

theorem Outcome.eq_ok_getD {α : Type} (x : Outcome α) (d : α)
    (h : x.value?.isSome = true) : x = Outcome.ok (x.getD d) := by
  cases x with
  | ok a => rfl
  | fault f => exact absurd h (by simp [Outcome.value?])

theorem Outcome.eq_ok_pair {α β : Type} (x : Outcome (α × β)) (d : α × β) (a : α)
    (h : x.value?.isSome = true) (ha : (x.getD d).1 = a) :
    x = Outcome.ok (a, (x.getD d).2) := by
  cases x with
  | ok p =>
    cases p with
    | mk p1 p2 =>
      have e : p1 = a := ha
      rw [e]
      rfl
  | fault f => exact absurd h (by simp [Outcome.value?])

set_option maxRecDepth 100000 in
/-- Witness of `walk_dot_classification`: the first record of the directory
`SUBDIR` of `minimalImage` is `.`, a self entry; the loop of `walk` goes on to
the next record with `files` unchanged. -/
theorem walk_dot_classification_witness :
    (DirEntryIterator.neEnd minimalImage subdirEntry (fun _ => 0)
        (File.begin minimalImage (fun _ => 0)) = Outcome.ok (true, subdirTested) ∧
      DirEntryIterator.deref minimalImage subdirEntry (fun _ => 0) subdirTested
        = Outcome.ok (dotEntry, subdirYielded) ∧
      walkSkips dotEntry = false ∧
      walkChain minimalImage 4 dotEntry.startCluster 3 = Outcome.ok 3 ∧
      DirEntryIterator.incr minimalImage subdirEntry (fun _ => 0) subdirYielded
        = Outcome.ok subdirNext ∧
      walkIsDot dotEntry = true) ∧
    walkLoop minimalImage (fun _ => 0) (fun _ => 0) (4 + 1) subdirEntry 1
        (File.begin minimalImage (fun _ => 0))
        { files := 1, maxClusterF := 3, out := [(0, subdirEntry)] }
      = walkLoop minimalImage (fun _ => 0) (fun _ => 0) 4 subdirEntry 1 subdirNext
          { files := 1, maxClusterF := 3, out := [(0, subdirEntry)] ++ [(1, dotEntry)] } := by
  have h1 : DirEntryIterator.neEnd minimalImage subdirEntry (fun _ => 0)
      (File.begin minimalImage (fun _ => 0)) = Outcome.ok (true, subdirTested) :=
    Outcome.eq_ok_pair _ _ true (by decide) (by decide)
  have h2 : DirEntryIterator.deref minimalImage subdirEntry (fun _ => 0) subdirTested
      = Outcome.ok (dotEntry, subdirYielded) :=
    Outcome.eq_ok_pair _ _ dotEntry (by decide) (by decide!)
  have hs : walkSkips dotEntry = false := by decide
  have hc : walkChain minimalImage 4 dotEntry.startCluster 3 = Outcome.ok 3 := by decide
  have h3 : DirEntryIterator.incr minimalImage subdirEntry (fun _ => 0) subdirYielded
      = Outcome.ok subdirNext :=
    Outcome.eq_ok_getD _ _ (by decide)
  have hd : walkIsDot dotEntry = true := by decide
  exact ⟨⟨h1, h2, hs, hc, h3, hd⟩,
    (walk_dot_classification minimalImage (fun _ => 0) (fun _ => 0) 4 subdirEntry 1
      (File.begin minimalImage (fun _ => 0)) subdirTested subdirYielded subdirNext
      { files := 1, maxClusterF := 3, out := [(0, subdirEntry)] } dotEntry 3
      h1 h2 hs hc h3).2.1 hd⟩

end Fat32
